import Mathlib

/-!
A shallow embedding of the Janggi engine (`Board.py`, `BoardPieces.py`,
`Main.py`).

Rows are the naturals 1-10 and columns are the characters a-i, exactly as the
Python source keys its board dictionary.  Python exceptions (KeyError,
IndexError, ValueError, AttributeError) are modelled by `Option`: a `none`
result means the corresponding Python call raises.  The mutable board becomes
explicit state passing: each mutating method takes a `Board` and returns the
final `Board` next to its Python return value.  Python's `int(...)` parser is
modelled by `String.toNat?`, which agrees with it on digit strings and raises
(returns `none`) otherwise.
-/

namespace Janggi

abbrev Coord := Nat × Char

inductive Color where
  | RED
  | BLUE
deriving DecidableEq

open Color

/-- The opponent of a color (the `if color == 'BLUE' ... else ...` pattern
the source repeats inline). -/
def otherColor : Color → Color
  | RED => BLUE
  | BLUE => RED

inductive Kind where
  | GENERAL
  | GUARD
  | HORSE
  | ELEPHANT
  | CHARIOT
  | CANNON
  | SOLDIER
deriving DecidableEq

open Kind

/-- One game piece: its kind and color (immutable in the source) and its
recorded current position (`_current_pos` in `BoardPieces.py`). -/
structure Piece where
  kind : Kind
  color : Color
  pos : Coord
deriving DecidableEq

/-- The string `_alphabet = 'abcdefghi'` used for indexing columns. -/
def alphabetL : List Char := ['a', 'b', 'c', 'd', 'e', 'f', 'g', 'h', 'i']

/-- Python `self._alphabet.index(ch)`: the index of a column character,
raising ValueError (`none`) when the character is not a column letter. -/
def colIdx : Char → Option Nat
  | 'a' => some 0
  | 'b' => some 1
  | 'c' => some 2
  | 'd' => some 3
  | 'e' => some 4
  | 'f' => some 5
  | 'g' => some 6
  | 'h' => some 7
  | 'i' => some 8
  | _ => none

/-- Python string indexing `self._alphabet[i]` for a possibly negative index:
indices 0-8 address the letters directly, indices -9..-1 wrap around (Python
negative indexing), anything else raises IndexError (`none`). -/
def alphaGet (i : Int) : Option Char :=
  if 0 ≤ i then (if i ≤ 8 then alphabetL.get? i.toNat else none)
  else (if -9 ≤ i then alphabetL.get? (i + 9).toNat else none)

/-- A coordinate addresses a real cell of the 10x9 board dictionary:
row key 1-10 and column key a-i. -/
def validCoord (c : Coord) : Bool :=
  decide (1 ≤ c.1) && decide (c.1 ≤ 10) && alphabetL.contains c.2

/-- All 90 cells of the board, in the row-major order in which Python
iterates `self._board.values()`. -/
def allCoords : List Coord :=
  (List.range' 1 10).flatMap (fun r => alphabetL.map (fun ch => (r, ch)))

/-- The `_red_palace` coordinate tuple of `JanggiBoard.__init__`. -/
def red_palace : List Coord :=
  [(1, 'd'), (1, 'e'), (1, 'f'),
   (2, 'd'), (2, 'e'), (2, 'f'),
   (3, 'd'), (3, 'e'), (3, 'f')]

/-- The `_blue_palace` coordinate tuple of `JanggiBoard.__init__`. -/
def blue_palace : List Coord :=
  [(8, 'd'), (8, 'e'), (8, 'f'),
   (9, 'd'), (9, 'e'), (9, 'f'),
   (10, 'd'), (10, 'e'), (10, 'f')]

/-- Movement range shared verbatim by `General.get_movement_range` and
`Guard.get_movement_range` (the two Python bodies are identical):
one step orthogonally, the sideways steps indexed without a bounds check
(IndexError at column i, wrap-around at column a), plus the hardcoded
palace-diagonal moves for the piece's own color. -/
def general_guard_movement_range (color : Color) (current : Coord) : Option (List Coord) := do
  let current_row := current.1
  let current_column := current.2
  let ci ← colIdx current_column
  let vertical : List Coord :=
    (if current_row - 1 > 0 then [(current_row - 1, current_column)] else []) ++
    (if current_row + 1 ≤ 10 then [(current_row + 1, current_column)] else [])
  let cRight ← alphaGet ((ci : Int) + 1)
  let cLeft ← alphaGet ((ci : Int) - 1)
  let sideways : List Coord := [(current_row, cRight), (current_row, cLeft)]
  let blueDiag : List Coord :=
    if color = BLUE then
      (if current = (8, 'd') ∨ current = (8, 'f') then [(9, 'e')] else []) ++
      (if current = (9, 'e') then [(8, 'd'), (8, 'f'), (10, 'd'), (10, 'f')] else []) ++
      (if current = (10, 'd') ∨ current = (10, 'f') then [(9, 'e')] else [])
    else []
  let redDiag : List Coord :=
    if color = RED then
      (if current = (3, 'd') ∨ current = (3, 'f') then [(2, 'e')] else []) ++
      (if current = (2, 'e') then [(1, 'd'), (1, 'f'), (3, 'd'), (3, 'f')] else []) ++
      (if current = (1, 'd') ∨ current = (1, 'f') then [(2, 'e')] else [])
    else []
  pure (vertical ++ sideways ++ blueDiag ++ redDiag)

/-- `Horse.get_movement_range`: (2,1) L-jumps, every board-edge case guarded
before indexing, exactly as in the source. -/
def horse_movement_range (current : Coord) : Option (List Coord) := do
  let r := current.1
  let ci ← colIdx current.2
  let g1 ←
    if r + 2 ≤ 10 then do
      let a ← if ci + 1 ≤ 8 then (alphaGet ((ci : Int) + 1)).map (fun ch => [((r + 2 : Nat), ch)]) else pure []
      let b ← if 1 ≤ ci then (alphaGet ((ci : Int) - 1)).map (fun ch => [((r + 2 : Nat), ch)]) else pure []
      pure (a ++ b)
    else pure []
  let g2 ←
    if r - 2 > 0 then do
      let a ← if ci + 1 ≤ 8 then (alphaGet ((ci : Int) + 1)).map (fun ch => [((r - 2 : Nat), ch)]) else pure []
      let b ← if 1 ≤ ci then (alphaGet ((ci : Int) - 1)).map (fun ch => [((r - 2 : Nat), ch)]) else pure []
      pure (a ++ b)
    else pure []
  let g3 ←
    if ci + 2 ≤ 8 then do
      let a ← if r + 1 ≤ 10 then (alphaGet ((ci : Int) + 2)).map (fun ch => [((r + 1 : Nat), ch)]) else pure []
      let b ← if r - 1 > 0 then (alphaGet ((ci : Int) + 2)).map (fun ch => [((r - 1 : Nat), ch)]) else pure []
      pure (a ++ b)
    else pure []
  let g4 ←
    if 2 ≤ ci then do
      let a ← if r + 1 ≤ 10 then (alphaGet ((ci : Int) - 2)).map (fun ch => [((r + 1 : Nat), ch)]) else pure []
      let b ← if r - 1 > 0 then (alphaGet ((ci : Int) - 2)).map (fun ch => [((r - 1 : Nat), ch)]) else pure []
      pure (a ++ b)
    else pure []
  pure (g1 ++ g2 ++ g3 ++ g4)

/-- `Elephant.get_movement_range`: (3,2) extended L-jumps, guarded like the
horse's. -/
def elephant_movement_range (current : Coord) : Option (List Coord) := do
  let r := current.1
  let ci ← colIdx current.2
  let g1 ←
    if r + 3 ≤ 10 then do
      let a ← if ci + 2 ≤ 8 then (alphaGet ((ci : Int) + 2)).map (fun ch => [((r + 3 : Nat), ch)]) else pure []
      let b ← if 2 ≤ ci then (alphaGet ((ci : Int) - 2)).map (fun ch => [((r + 3 : Nat), ch)]) else pure []
      pure (a ++ b)
    else pure []
  let g2 ←
    if r - 3 > 0 then do
      let a ← if ci + 2 ≤ 8 then (alphaGet ((ci : Int) + 2)).map (fun ch => [((r - 3 : Nat), ch)]) else pure []
      let b ← if 2 ≤ ci then (alphaGet ((ci : Int) - 2)).map (fun ch => [((r - 3 : Nat), ch)]) else pure []
      pure (a ++ b)
    else pure []
  let g3 ←
    if ci + 3 ≤ 8 then do
      let a ← if r + 2 ≤ 10 then (alphaGet ((ci : Int) + 3)).map (fun ch => [((r + 2 : Nat), ch)]) else pure []
      let b ← if r - 2 > 0 then (alphaGet ((ci : Int) + 3)).map (fun ch => [((r - 2 : Nat), ch)]) else pure []
      pure (a ++ b)
    else pure []
  let g4 ←
    if 3 ≤ ci then do
      let a ← if r + 2 ≤ 10 then (alphaGet ((ci : Int) - 3)).map (fun ch => [((r + 2 : Nat), ch)]) else pure []
      let b ← if r - 2 > 0 then (alphaGet ((ci : Int) - 3)).map (fun ch => [((r - 2 : Nat), ch)]) else pure []
      pure (a ++ b)
    else pure []
  pure (g1 ++ g2 ++ g3 ++ g4)

/-- Movement range shared verbatim by `Chariot.get_movement_range` and
`Cannon.get_movement_range` (the two Python bodies are identical): the whole
current row and column, plus the hardcoded palace corner-to-corner
diagonals. -/
def chariot_cannon_movement_range (current : Coord) : List Coord :=
  ((List.range' 1 10).filter (fun row => row ≠ current.1)).map (fun row => (row, current.2)) ++
  (alphabetL.filter (fun col => col ≠ current.2)).map (fun col => (current.1, col)) ++
  (if current = (8, 'f') then [(10, 'd')] else []) ++
  (if current = (8, 'd') then [(10, 'f')] else []) ++
  (if current = (10, 'd') then [(8, 'f')] else []) ++
  (if current = (10, 'f') then [(8, 'd')] else []) ++
  (if current = (3, 'f') then [(1, 'd')] else []) ++
  (if current = (3, 'd') then [(1, 'f')] else []) ++
  (if current = (1, 'd') then [(3, 'f')] else []) ++
  (if current = (1, 'f') then [(3, 'd')] else [])

/-- `Soldier.get_movement_range`: one step forward (color-dependent, absent at
the far edge), one step sideways (absent at the board edge), plus the palace
diagonal extensions into the enemy palace. -/
def soldier_movement_range (color : Color) (current : Coord) : Option (List Coord) := do
  let current_row := current.1
  let ci ← colIdx current.2
  let forward : Option Coord :=
    if color = BLUE ∧ current_row = 1 then none
    else if color = RED ∧ current_row = 10 then none
    else some (if color = RED then current_row + 1 else current_row - 1, current.2)
  let left : Option Coord ←
    if ci = 0 then pure none
    else (alphaGet ((ci : Int) - 1)).map (fun ch => some (current_row, ch))
  let right : Option Coord ←
    if ci = 8 then pure none
    else (alphaGet ((ci : Int) + 1)).map (fun ch => some (current_row, ch))
  let redDiag : List (Option Coord) :=
    if color = RED then
      (if current = (8, 'd') ∨ current = (8, 'f') then [some (9, 'e')] else []) ++
      (if current = (9, 'e') then [some (10, 'd'), some (10, 'f')] else [])
    else []
  let blueDiag : List (Option Coord) :=
    if color = BLUE then
      (if current = (3, 'd') ∨ current = (3, 'f') then [some (2, 'e')] else []) ++
      (if current = (2, 'e') then [some (1, 'd'), some (1, 'f')] else [])
    else []
  let directions : List (Option Coord) := [forward, left, right] ++ redDiag ++ blueDiag
  pure (directions.filterMap id)

/-- Dispatch of `get_movement_range` over the piece subclasses. -/
def get_movement_range (p : Piece) : Option (List Coord) :=
  match p.kind with
  | GENERAL => general_guard_movement_range p.color p.pos
  | GUARD => general_guard_movement_range p.color p.pos
  | HORSE => horse_movement_range p.pos
  | ELEPHANT => elephant_movement_range p.pos
  | CHARIOT => some (chariot_cannon_movement_range p.pos)
  | CANNON => some (chariot_cannon_movement_range p.pos)
  | SOLDIER => soldier_movement_range p.color p.pos

/-- The state of a `JanggiBoard` object: the grid (dictionary of
dictionaries — here a function from cell to occupant), the
`_general_locations` dictionary and the `_checkmate` flag. -/
structure Board where
  grid : Coord → Option Piece
  general_locations : Color → Coord
  checkmate : Bool

/-- `JanggiBoard.get_location_contents`: dictionary lookup
`self._board[c[0]][c[1]]`, raising KeyError (`none`) off the board;
`some none` is an empty cell. -/
def get_location_contents (b : Board) (c : Coord) : Option (Option Piece) :=
  if validCoord c then some (b.grid c) else none

/-- Board dictionary assignment `self._board[c[0]][c[1]] = v`, raising
KeyError (`none`) off the board. -/
def set_location (b : Board) (c : Coord) (v : Option Piece) : Option Board :=
  if validCoord c then
    some { b with grid := fun x => if x = c then v else b.grid x }
  else none

/-- Representation invariant of the Python object graph: each piece stored in
a grid cell records that cell as its `_current_pos`.  Every reachable board
satisfies this (`move_piece` keeps the two in sync). -/
def posConsistent (b : Board) : Bool :=
  allCoords.all (fun c =>
    match b.grid c with
    | some p => decide (p.pos = c)
    | none => true)

/-- The general-location dictionary is accurate: for each color it points at
a cell that holds a General of that color. -/
def generalLocationsAccurate (b : Board) : Bool :=
  [RED, BLUE].all (fun col =>
    validCoord (b.general_locations col) &&
    match b.grid (b.general_locations col) with
    | some p => decide (p.kind = GENERAL) && decide (p.color = col)
    | none => false)

/-- Read the occupant kinds of a list of cells in order, as the `found` list
of `pieces_in_orthogonal_path` accumulates them (`none` = KeyError on some
cell). -/
def scanCells (b : Board) : List Coord → Option (List Kind)
  | [] => some []
  | c :: rest => do
    let content ← get_location_contents b c
    let tailKinds ← scanCells b rest
    match content with
    | some p => pure (p.kind :: tailKinds)
    | none => pure tailKinds

/-- Turn a list of column indices into cells of one row (each index is a
valid alphabet index by construction of the callers). -/
def colsToCells (row : Nat) : List Nat → Option (List Coord)
  | [] => some []
  | i :: rest => do
    let ch ← alphaGet (i : Int)
    let tailCells ← colsToCells row rest
    pure ((row, ch) :: tailCells)

/-- The `found` list computed by `JanggiBoard.pieces_in_orthogonal_path`:
occupant names (kinds) strictly between `move_from` and `move_to` along a
shared row or column, or the palace-center cell for the corner-to-corner
palace diagonals. -/
def pieces_in_orthogonal_path_found (b : Board) (move_from move_to : Coord) : Option (List Kind) :=
  if move_from.1 = move_to.1 then do
    let from_index ← colIdx move_from.2
    let to_index ← colIdx move_to.2
    if move_from.2 < move_to.2 then do
      let cells ← colsToCells move_from.1 (List.range' (from_index + 1) (to_index - (from_index + 1)))
      scanCells b cells
    else if move_to.2 < move_from.2 then do
      let cells ← colsToCells move_from.1 ((List.range' (to_index + 1) (from_index - (to_index + 1))).reverse)
      scanCells b cells
    else pure []
  else if move_from.2 = move_to.2 then
    if move_to.1 < move_from.1 then
      scanCells b (((List.range' (move_to.1 + 1) (move_from.1 - (move_to.1 + 1))).reverse).map (fun r => (r, move_from.2)))
    else if move_from.1 < move_to.1 then
      scanCells b ((List.range' (move_from.1 + 1) (move_to.1 - (move_from.1 + 1))).map (fun r => (r, move_from.2)))
    else pure []
  else if move_from.2 = 'd' ∨ move_from.2 = 'f' then do
    let content ← get_location_contents b (if move_from.1 ≤ 3 then (2, 'e') else (9, 'e'))
    pure (match content with | some p => [p.kind] | none => [])
  else pure []

/-- `pieces_in_orthogonal_path` with the default `searching_for="ANY"`:
the number of pieces in the path. -/
def pieces_in_orthogonal_path_count (b : Board) (move_from move_to : Coord) : Option Nat :=
  (pieces_in_orthogonal_path_found b move_from move_to).map List.length

/-- `pieces_in_orthogonal_path` with `searching_for="CANNON"`: whether a
cannon sits in the path (Python returns `True` or falls off returning
`None`; both callers only test truthiness, so a `Bool` is faithful). -/
def pieces_in_orthogonal_path_cannon (b : Board) (move_from move_to : Coord) : Option Bool :=
  (pieces_in_orthogonal_path_found b move_from move_to).map (fun found => found.any (fun k => k = CANNON))

/-- `JanggiBoard.is_elephant_path_blocked`: the intermediate orthogonal step
and diagonal step of the (3,2) trajectory, occupant found means blocked. -/
def is_elephant_path_blocked (b : Board) (elephant : Piece) (move_to : Coord) : Option Bool := do
  let move_from := elephant.pos
  let from_ci ← colIdx move_from.2
  let to_ci ← colIdx move_to.2
  let north_south : Int := (move_to.1 : Int) - (move_from.1 : Int)
  let east_west : Int := (to_ci : Int) - (from_ci : Int)
  if north_south.natAbs = 3 then
    if north_south > 0 then do
      let i1 ← get_location_contents b (move_from.1 + 1, move_from.2)
      let ch ← alphaGet (if east_west > 0 then (from_ci : Int) + 1 else (from_ci : Int) - 1)
      let i2 ← get_location_contents b (move_from.1 + 2, ch)
      pure (i1.isSome || i2.isSome)
    else do
      let i1 ← get_location_contents b (move_from.1 - 1, move_from.2)
      let ch ← alphaGet (if east_west > 0 then (from_ci : Int) + 1 else (from_ci : Int) - 1)
      let i2 ← get_location_contents b (move_from.1 - 2, ch)
      pure (i1.isSome || i2.isSome)
  else
    if east_west > 0 then do
      let ch1 ← alphaGet ((from_ci : Int) + 1)
      let i1 ← get_location_contents b (move_from.1, ch1)
      let ch2 ← alphaGet ((from_ci : Int) + 2)
      let i2 ← get_location_contents b (if north_south > 0 then move_from.1 + 1 else move_from.1 - 1, ch2)
      pure (i1.isSome || i2.isSome)
    else do
      let ch1 ← alphaGet ((from_ci : Int) - 1)
      let i1 ← get_location_contents b (move_from.1, ch1)
      let ch2 ← alphaGet ((from_ci : Int) - 2)
      let i2 ← get_location_contents b (if north_south > 0 then move_from.1 + 1 else move_from.1 - 1, ch2)
      pure (i1.isSome || i2.isSome)

/-- `JanggiBoard.is_horse_path_blocked`: the single intermediate square of
the (2,1) trajectory. -/
def is_horse_path_blocked (b : Board) (horse : Piece) (move_to : Coord) : Option Bool := do
  let move_from := horse.pos
  let from_ci ← colIdx move_from.2
  let to_ci ← colIdx move_to.2
  let north_south : Int := (move_to.1 : Int) - (move_from.1 : Int)
  let east_west : Int := (to_ci : Int) - (from_ci : Int)
  if north_south.natAbs = 2 then
    if north_south > 0 then do
      let item ← get_location_contents b (move_from.1 + 1, move_from.2)
      pure item.isSome
    else do
      let item ← get_location_contents b (move_from.1 - 1, move_from.2)
      pure item.isSome
  else
    if east_west > 0 then do
      let ch ← alphaGet ((from_ci : Int) + 1)
      let item ← get_location_contents b (move_from.1, ch)
      pure item.isSome
    else do
      let ch ← alphaGet ((from_ci : Int) - 1)
      let item ← get_location_contents b (move_from.1, ch)
      pure item.isSome

/-- Lines 116-169 of `pass_legality_check`: the per-piece legality chain
shared by the hypothetical and the real mode — wrong color, out of range,
friendly destination, cannon-on-cannon, palace confinement, and the
path-blocking rules.  `movement_range` is the list computed once at line 97. -/
def legality_tail (b : Board) (move_to : Coord) (piece : Piece) (current_turn : Color)
    (movement_range : List Coord) : Option Bool :=
  if piece.color ≠ current_turn then pure false
  else if move_to ∉ movement_range then pure false
  else
    (get_location_contents b move_to).bind (fun dest =>
      if (match dest with | some d => decide (piece.color = d.color) | none => false : Bool) then
        pure false
      else if (match dest with
               | some d => decide (piece.kind = CANNON) && decide (d.kind = CANNON)
               | none => false : Bool) then
        pure false
      else if (piece.kind = GENERAL ∨ piece.kind = GUARD) ∧
          move_to ∉ blue_palace ∧ move_to ∉ red_palace then
        pure false
      else
        (if piece.kind = CHARIOT then
           (pieces_in_orthogonal_path_count b piece.pos move_to).map (fun cnt => decide (cnt ≠ 0))
         else pure false).bind (fun chariotBlocked =>
          if chariotBlocked then pure false
          else
            (if piece.kind = CANNON then
               (pieces_in_orthogonal_path_count b piece.pos move_to).bind (fun cnt =>
                 if cnt ≠ 1 then pure true
                 else pieces_in_orthogonal_path_cannon b piece.pos move_to)
             else pure false).bind (fun cannonBlocked =>
              if cannonBlocked then pure false
              else
                (if piece.kind = ELEPHANT then is_elephant_path_blocked b piece move_to
                 else pure false).bind (fun elephantBlocked =>
                  if elephantBlocked then pure false
                  else
                    (if piece.kind = HORSE then is_horse_path_blocked b piece move_to
                     else pure false).bind (fun horseBlocked =>
                      if horseBlocked then pure false else pure true)))))

/-- `pass_legality_check` called with `hypothetical_movement=True`: the
check-status block is skipped, only lines 91-98 and the tail run, and the
board is left untouched (so only the Bool is returned). -/
def pass_legality_hyp (b : Board) (move_to : Coord) (piece : Piece) (current_turn : Color) : Option Bool := do
  let movement_range ← get_movement_range piece
  let _general ← get_location_contents b (b.general_locations current_turn)
  legality_tail b move_to piece current_turn movement_range

/-- Inner loop of `get_general_check_status`: scan one enemy piece's
movement range; the hypothetical legality check runs only for the move that
lands on the general (Python's `and` short-circuits). -/
def gcsInner (b : Board) (item : Piece) (enemy_color : Color) (general_location : Coord) :
    List Coord → Option Bool
  | [] => some false
  | potential_move :: rest =>
    if potential_move = general_location then do
      let ok ← pass_legality_hyp b potential_move item enemy_color
      if ok then some true else gcsInner b item enemy_color general_location rest
    else gcsInner b item enemy_color general_location rest

/-- Outer loop of `get_general_check_status` over the board cells. -/
def gcsOuter (b : Board) (general_color enemy_color : Color) (general_location : Coord) :
    List Coord → Option Bool
  | [] => some false
  | c :: rest =>
    match b.grid c with
    | some item =>
      if item.color ≠ general_color then do
        let movement_range ← get_movement_range item
        let found ← gcsInner b item enemy_color general_location movement_range
        if found then some true else gcsOuter b general_color enemy_color general_location rest
      else gcsOuter b general_color enemy_color general_location rest
    | none => gcsOuter b general_color enemy_color general_location rest

/-- `JanggiBoard.get_general_check_status`: some enemy piece's raw range hits
the general's location and the hypothetical legality check confirms the
capture. -/
def get_general_check_status (b : Board) (general_color : Color) : Option Bool :=
  let general_location := b.general_locations general_color
  let enemy_color := if general_color = BLUE then RED else BLUE
  gcsOuter b general_color enemy_color general_location allCoords

/-- Zone accumulation of `safe_general_move_check`: every raw movement-range
coordinate of every opposing piece, with no legality filtering. -/
def rawZoneOuter (b : Board) (opposing_color : Color) : List Coord → Option (List Coord)
  | [] => some []
  | c :: rest =>
    match b.grid c with
    | some item =>
      if item.color = opposing_color then do
        let movement_range ← get_movement_range item
        let restZone ← rawZoneOuter b opposing_color rest
        pure (movement_range ++ restZone)
      else rawZoneOuter b opposing_color rest
    | none => rawZoneOuter b opposing_color rest

/-- `JanggiBoard.safe_general_move_check`: a specific general destination is
safe iff it is missing from the opposing side's unfiltered zone. -/
def safe_general_move_check (b : Board) (opposing_color : Color) (move_to : Coord) : Option Bool := do
  let check_zone ← rawZoneOuter b opposing_color allCoords
  pure (move_to ∉ check_zone : Bool)

/-- Filter one opposing piece's movement range by the hypothetical legality
check, as the check-zone loop of `is_general_stuck` does. -/
def zoneFilter (b : Board) (item : Piece) (opposing_color : Color) : List Coord → Option (List Coord)
  | [] => some []
  | location :: rest => do
    let ok ← pass_legality_hyp b location item opposing_color
    let restZone ← zoneFilter b item opposing_color rest
    pure (if ok then location :: restZone else restZone)

/-- Check-zone accumulation of `is_general_stuck` over the board cells. -/
def checkZoneOuter (b : Board) (opposing_color : Color) : List Coord → Option (List Coord)
  | [] => some []
  | c :: rest =>
    match b.grid c with
    | some item =>
      if item.color = opposing_color then do
        let movement_range ← get_movement_range item
        let here ← zoneFilter b item opposing_color movement_range
        let restZone ← checkZoneOuter b opposing_color rest
        pure (here ++ restZone)
      else checkZoneOuter b opposing_color rest
    | none => checkZoneOuter b opposing_color rest

/-- Escape-option accumulation of `is_general_stuck`: general destinations
outside the check zone that pass the hypothetical legality check (the
legality check is short-circuited away for options inside the zone). -/
def escapeOptions (b : Board) (general : Piece) (general_color : Color) (check_zone : List Coord) :
    List Coord → Option (List Coord)
  | [] => some []
  | option :: rest =>
    if option ∈ check_zone then escapeOptions b general general_color check_zone rest
    else do
      let ok ← pass_legality_hyp b option general general_color
      let restOptions ← escapeOptions b general general_color check_zone rest
      pure (if ok then option :: restOptions else restOptions)

/-- `JanggiBoard.is_general_stuck`: no escape option exists. -/
def is_general_stuck (b : Board) (general : Piece) (opposing_color : Color) : Option Bool := do
  let general_range ← get_movement_range general
  let general_color := general.color
  let check_zone ← checkZoneOuter b opposing_color allCoords
  let escape_options ← escapeOptions b general general_color check_zone general_range
  pure (escape_options.length = 0 : Bool)

/-- `JanggiBoard.test_save_general_movement`: simulate the move on the real
grid, read the check status, then restore both cells unconditionally and
report whether the check was cleared. -/
def test_save_general_movement (b : Board) (friendly_piece : Piece) (save_general_move : Coord)
    (general_color : Color) : Option (Bool × Board) := do
  let save_item ← get_location_contents b save_general_move
  let original_location := friendly_piece.pos
  let b1 ← set_location b save_general_move (some friendly_piece)
  let b2 ← set_location b1 original_location none
  let general_still_checked ← get_general_check_status b2 general_color
  let b3 ← set_location b2 save_general_move save_item
  let b4 ← set_location b3 original_location (some friendly_piece)
  pure (!general_still_checked, b4)

/-- Inner loop of `can_friendly_break_check` over one friendly piece's
movement range, threading the board through each simulation. -/
def cfbcInner (item : Piece) (general_color : Color) (general_location : Coord) :
    List Coord → Board → Option (Bool × Board)
  | [], b => some (false, b)
  | potential_move :: rest, b =>
    if potential_move ≠ general_location then do
      let ok ← pass_legality_hyp b potential_move item general_color
      if ok then do
        let (saved, b1) ← test_save_general_movement b item potential_move general_color
        if saved then pure (true, b1) else cfbcInner item general_color general_location rest b1
      else cfbcInner item general_color general_location rest b
    else cfbcInner item general_color general_location rest b

/-- Outer loop of `can_friendly_break_check` over the board cells; the
general itself is skipped by the `item != general` identity test. -/
def cfbcOuter (general : Piece) (general_color : Color) (general_location : Coord) :
    List Coord → Board → Option (Bool × Board)
  | [], b => some (false, b)
  | c :: rest, b =>
    match b.grid c with
    | some item =>
      if item = general then cfbcOuter general general_color general_location rest b
      else if item.color = general_color then do
        let movement_range ← get_movement_range item
        let (found, b1) ← cfbcInner item general_color general_location movement_range b
        if found then pure (true, b1) else cfbcOuter general general_color general_location rest b1
      else cfbcOuter general general_color general_location rest b
    | none => cfbcOuter general general_color general_location rest b

/-- `JanggiBoard.can_friendly_break_check`: some friendly non-General piece
has a hypothetically legal move whose simulation clears the check. -/
def can_friendly_break_check (b : Board) (general : Piece) : Option (Bool × Board) :=
  cfbcOuter general general.color general.pos allCoords b

/-- `JanggiBoard.pass_legality_check` with its `hypothetical_movement` flag.
In real mode the check-status block of lines 100-113 runs first; its
simulations thread the board (which they restore).  A `None` general is an
AttributeError (`none`) inside `can_friendly_break_check`, as in Python. -/
def pass_legality_check (b : Board) (move_to : Coord) (piece : Piece) (current_turn : Color)
    (hypothetical_movement : Bool) : Option (Bool × Board) := do
  let opposing_color := if piece.color = BLUE then RED else BLUE
  let movement_range ← get_movement_range piece
  let general ← get_location_contents b (b.general_locations current_turn)
  if hypothetical_movement then do
    let r ← legality_tail b move_to piece current_turn movement_range
    pure (r, b)
  else do
    let checked ← get_general_check_status b current_turn
    if checked ∧ general ≠ some piece then do
      let g ← general
      let (canBreak, b1) ← can_friendly_break_check b g
      if ¬canBreak then pure (false, b1)
      else do
        let (saves, b2) ← test_save_general_movement b1 piece move_to piece.color
        if ¬saves then pure (false, b2)
        else do
          let r ← legality_tail b2 move_to piece current_turn movement_range
          pure (r, b2)
    else if checked then do
      let safe ← safe_general_move_check b opposing_color move_to
      if ¬safe then pure (false, b)
      else do
        let r ← legality_tail b move_to piece current_turn movement_range
        pure (r, b)
    else do
      let r ← legality_tail b move_to piece current_turn movement_range
      pure (r, b)

/-- `JanggiBoard.move_piece`: empty source or failed legality check returns
`False`; otherwise the piece is relocated (its recorded position updated as
the grid cell now holds it) and the general-location entry for the current
turn follows a moving General. -/
def move_piece (b : Board) (move_from move_to : Coord) (current_turn : Color) :
    Option (Bool × Board) := do
  let board_piece ← get_location_contents b move_from
  match board_piece with
  | none => pure (false, b)
  | some piece => do
    let (legal, b1) ← pass_legality_check b move_to piece current_turn false
    if legal = false then pure (false, b1)
    else do
      let b2 ← set_location b1 move_to (some { piece with pos := move_to })
      let b3 ← set_location b2 move_from none
      let b4 : Board :=
        if piece.kind = GENERAL then
          { b3 with general_locations := fun col => if col = current_turn then move_to else b3.general_locations col }
        else b3
      pure (true, b4)

/-- `JanggiBoard.get_checkmate_status`. -/
def get_checkmate_status (b : Board) : Bool :=
  b.checkmate

/-- `JanggiBoard.update_checkmate_status`: for each color in turn, if that
general is stuck and no friendly piece can break the check, set the
`_checkmate` flag.  A missing general raises (`none`) inside
`is_general_stuck`, after both location reads succeeded. -/
def update_checkmate_status (b : Board) : Option Board := do
  let red_general_opt ← get_location_contents b (b.general_locations RED)
  let blue_general_opt ← get_location_contents b (b.general_locations BLUE)
  let red_general ← red_general_opt
  let redStuck ← is_general_stuck b red_general BLUE
  let b1 ←
    if redStuck then do
      let (canBreak, b') ← can_friendly_break_check b red_general
      pure (if canBreak then b' else { b' with checkmate := true })
    else pure b
  let blue_general ← blue_general_opt
  let blueStuck ← is_general_stuck b1 blue_general RED
  if blueStuck then do
    let (canBreak, b') ← can_friendly_break_check b1 blue_general
    pure (if canBreak then b' else { b' with checkmate := true })
  else pure b1

/-- Python `int(...)` on a row substring, over the character list: digits
only (ValueError otherwise, and on the empty string). -/
def int_of_chars (l : List Char) : Option Nat :=
  if l = [] then none
  else if l.all Char.isDigit then
    some (l.foldl (fun acc c => acc * 10 + (c.toNat - 48)) 0)
  else none

/-- `JanggiBoard.parse_coordinate`: `"a1"` becomes `(1, 'a')`; an empty
string raises IndexError, a row part that `int(...)` rejects raises
ValueError (both `none`). -/
def parse_coordinate (string_location : String) : Option Coord := do
  let column ← string_location.toList.head?
  let row ← int_of_chars (string_location.toList.drop 1)
  pure (row, column)

inductive GameState where
  | UNFINISHED
  | RED_WON
  | BLUE_WON
deriving DecidableEq

open GameState

/-- The state of a `JanggiGame` object from `Main.py`. -/
structure Game where
  current_board : Board
  game_state : GameState
  current_turn : Color
  is_in_check : Color → Bool

/-- `JanggiGame.change_turn`. -/
def change_turn (g : Game) : Game :=
  { g with current_turn := if g.current_turn = BLUE then RED else BLUE }

/-- `JanggiGame.update_check_status`: refresh both check flags from the
board, and on a detected check also run the checkmate update, declaring the
winner when the board reports checkmate. -/
def update_check_status (g : Game) : Option Game := do
  let redChecked ← get_general_check_status g.current_board RED
  if redChecked then do
    let g1 : Game := { g with is_in_check := fun col => if col = RED then true else false }
    let b1 ← update_checkmate_status g1.current_board
    let g2 : Game := { g1 with current_board := b1 }
    if get_checkmate_status b1 then pure { g2 with game_state := BLUE_WON }
    else pure g2
  else do
    let blueChecked ← get_general_check_status g.current_board BLUE
    if blueChecked then do
      let g1 : Game := { g with is_in_check := fun col => if col = BLUE then true else false }
      let b1 ← update_checkmate_status g1.current_board
      let g2 : Game := { g1 with current_board := b1 }
      if get_checkmate_status b1 then pure { g2 with game_state := RED_WON }
      else pure g2
    else pure { g with is_in_check := fun _ => false }

/-- The part of `JanggiGame.make_move` after the syntax validation: terminal
game, conditional pass, or delegation to `move_piece` followed by the turn
flip and status update. -/
def make_move_validated (g : Game) (move_from move_to : String) : Option (Bool × Game) := do
  if g.game_state ≠ UNFINISHED then pure (false, g)
  else if move_from = move_to ∧ g.is_in_check g.current_turn = false then
    pure (true, change_turn g)
  else do
    let parsed_move_from ← parse_coordinate move_from
    let parsed_move_to ← parse_coordinate move_to
    let (move_made, b1) ← move_piece g.current_board parsed_move_from parsed_move_to g.current_turn
    if move_made then do
      let g1 := change_turn { g with current_board := b1 }
      let g2 ← update_check_status g1
      pure (true, g2)
    else pure (false, { g with current_board := b1 })

/-- `JanggiGame.make_move`: the input validation of lines 111-120 (first
characters must be column letters, length at least 2, a 3-character source —
or, failing that, destination — must spell the row 10), then
`make_move_validated`.  Indexing an empty string raises (`none`). -/
def make_move (g : Game) (move_from move_to : String) : Option (Bool × Game) := do
  let c0 ← move_from.toList.head?
  if alphabetL.contains c0.toLower = false then pure (false, g)
  else do
    let d0 ← move_to.toList.head?
    if alphabetL.contains d0.toLower = false then pure (false, g)
    else if move_from.length < 2 ∨ move_to.length < 2 then pure (false, g)
    else if move_from.length = 3 then
      if ¬(move_from.toList.get? 1 = some '1' ∧ move_from.toList.get? 2 = some '0') then pure (false, g)
      else make_move_validated g move_from move_to
    else if move_to.length = 3 then
      if ¬(move_to.toList.get? 1 = some '1' ∧ move_to.toList.get? 2 = some '0') then pure (false, g)
      else make_move_validated g move_from move_to
    else make_move_validated g move_from move_to

/-- The 32 pieces laid out by `JanggiBoard.pieces_generator`, keyed by their
starting cells. -/
def initial_pieces : List (Coord × Piece) :=
  [((1, 'a'), ⟨CHARIOT, RED, (1, 'a')⟩),
   ((1, 'b'), ⟨ELEPHANT, RED, (1, 'b')⟩),
   ((1, 'c'), ⟨HORSE, RED, (1, 'c')⟩),
   ((1, 'd'), ⟨GUARD, RED, (1, 'd')⟩),
   ((1, 'f'), ⟨GUARD, RED, (1, 'f')⟩),
   ((1, 'g'), ⟨ELEPHANT, RED, (1, 'g')⟩),
   ((1, 'h'), ⟨HORSE, RED, (1, 'h')⟩),
   ((1, 'i'), ⟨CHARIOT, RED, (1, 'i')⟩),
   ((2, 'e'), ⟨GENERAL, RED, (2, 'e')⟩),
   ((3, 'b'), ⟨CANNON, RED, (3, 'b')⟩),
   ((3, 'h'), ⟨CANNON, RED, (3, 'h')⟩),
   ((4, 'a'), ⟨SOLDIER, RED, (4, 'a')⟩),
   ((4, 'c'), ⟨SOLDIER, RED, (4, 'c')⟩),
   ((4, 'e'), ⟨SOLDIER, RED, (4, 'e')⟩),
   ((4, 'g'), ⟨SOLDIER, RED, (4, 'g')⟩),
   ((4, 'i'), ⟨SOLDIER, RED, (4, 'i')⟩),
   ((7, 'a'), ⟨SOLDIER, BLUE, (7, 'a')⟩),
   ((7, 'c'), ⟨SOLDIER, BLUE, (7, 'c')⟩),
   ((7, 'e'), ⟨SOLDIER, BLUE, (7, 'e')⟩),
   ((7, 'g'), ⟨SOLDIER, BLUE, (7, 'g')⟩),
   ((7, 'i'), ⟨SOLDIER, BLUE, (7, 'i')⟩),
   ((8, 'b'), ⟨CANNON, BLUE, (8, 'b')⟩),
   ((8, 'h'), ⟨CANNON, BLUE, (8, 'h')⟩),
   ((9, 'e'), ⟨GENERAL, BLUE, (9, 'e')⟩),
   ((10, 'a'), ⟨CHARIOT, BLUE, (10, 'a')⟩),
   ((10, 'b'), ⟨ELEPHANT, BLUE, (10, 'b')⟩),
   ((10, 'c'), ⟨HORSE, BLUE, (10, 'c')⟩),
   ((10, 'd'), ⟨GUARD, BLUE, (10, 'd')⟩),
   ((10, 'f'), ⟨GUARD, BLUE, (10, 'f')⟩),
   ((10, 'g'), ⟨ELEPHANT, BLUE, (10, 'g')⟩),
   ((10, 'h'), ⟨HORSE, BLUE, (10, 'h')⟩),
   ((10, 'i'), ⟨CHARIOT, BLUE, (10, 'i')⟩)]

/-- The board built by `JanggiBoard.__init__`. -/
def initial_board : Board :=
  { grid := fun c => initial_pieces.lookup c
    general_locations := fun col => match col with | BLUE => (9, 'e') | RED => (2, 'e')
    checkmate := false }

/-- The game built by `JanggiGame.__init__`. -/
def initial_game : Game :=
  { current_board := initial_board
    game_state := UNFINISHED
    current_turn := BLUE
    is_in_check := fun _ => false }

/-- Monadic universal quantification used by `claimed_is_general_stuck`:
every raw destination is covered by the zone or fails the hypothetical
legality check. -/
def claimedStuckAll (b : Board) (general : Piece) (general_color : Color) (zone : List Coord) :
    List Coord → Option Bool
  | [] => some true
  | option :: rest =>
    if option ∈ zone then claimedStuckAll b general general_color zone rest
    else do
      let ok ← pass_legality_hyp b option general general_color
      if ok then some false else claimedStuckAll b general general_color zone rest

/-- The predicate claim C4 states in its own words (for comparison with the
source's `is_general_stuck`): true iff every raw destination in the
General's movement range is either in the enemy's UNFILTERED threat zone
(raw geometric ranges, no legality filtering of the threatening piece) or
fails the hypothetical legality check for the General. -/
def claimed_is_general_stuck (b : Board) (general : Piece) (opposing_color : Color) : Option Bool := do
  let general_range ← get_movement_range general
  let check_zone ← rawZoneOuter b opposing_color allCoords
  claimedStuckAll b general general.color check_zone general_range

/-- The standard general-location dictionary contents. -/
def standard_general_locations : Color → Coord :=
  fun col => match col with | BLUE => (9, 'e') | RED => (2, 'e')

/-- A board position with three RED Chariots on column a, each blocked by a
RED Soldier on column b, facing the lone BLUE General: every BLUE General
destination lies in the RED pieces' raw ranges, but no RED piece can
actually reach any of them once legality filtering applies. -/
def blocked_chariots_board : Board :=
  { grid := fun c =>
      ([((2, 'e'), ⟨GENERAL, RED, (2, 'e')⟩),
        ((8, 'a'), ⟨CHARIOT, RED, (8, 'a')⟩),
        ((9, 'a'), ⟨CHARIOT, RED, (9, 'a')⟩),
        ((10, 'a'), ⟨CHARIOT, RED, (10, 'a')⟩),
        ((8, 'b'), ⟨SOLDIER, RED, (8, 'b')⟩),
        ((9, 'b'), ⟨SOLDIER, RED, (9, 'b')⟩),
        ((10, 'b'), ⟨SOLDIER, RED, (10, 'b')⟩),
        ((9, 'e'), ⟨GENERAL, BLUE, (9, 'e')⟩)] : List (Coord × Piece)).lookup c
    general_locations := standard_general_locations
    checkmate := false }

/-- The BLUE General of `blocked_chariots_board`. -/
def blocked_chariots_general : Piece := ⟨GENERAL, BLUE, (9, 'e')⟩

/-- A position where a BLUE Chariot on column e has a clear path onto the
RED General: capturing the enemy General is a legal `move_piece`. -/
def capture_general_board : Board :=
  { grid := fun c =>
      ([((2, 'e'), ⟨GENERAL, RED, (2, 'e')⟩),
        ((9, 'e'), ⟨GENERAL, BLUE, (9, 'e')⟩),
        ((5, 'e'), ⟨CHARIOT, BLUE, (5, 'e')⟩)] : List (Coord × Piece)).lookup c
    general_locations := standard_general_locations
    checkmate := false }

/-- A two-Generals position whose `_checkmate` flag is already set, used to
exercise `update_checkmate_status` on a board where the flag is true. -/
def flagged_board : Board :=
  { grid := fun c =>
      ([((2, 'e'), ⟨GENERAL, RED, (2, 'e')⟩),
        ((9, 'e'), ⟨GENERAL, BLUE, (9, 'e')⟩)] : List (Coord × Piece)).lookup c
    general_locations := standard_general_locations
    checkmate := true }

/-- Chain one successful `move_piece` onto a board computation (test-harness
glue for replaying a game at board level). -/
def mpStep (ob : Option Board) (move_from move_to : Coord) (turn : Color) : Option Board :=
  ob.bind (fun b => (move_piece b move_from move_to turn).bind
    (fun x => if x.1 then some x.2 else none))

/-- The board reached from the initial position by the successful moves
RED a4-a5, RED a1-a4, RED a4-b4, RED b4-b5, RED b5-e5 (BLUE passing in
between, which leaves the board untouched): a RED Chariot now sits on e5,
its check on the BLUE General blocked only by the BLUE Soldier on e7. -/
def exposed_pin_board : Option Board :=
  mpStep (mpStep (mpStep (mpStep (mpStep (some initial_board)
    (4, 'a') (5, 'a') RED)
    (1, 'a') (4, 'a') RED)
    (4, 'a') (4, 'b') RED)
    (4, 'b') (5, 'b') RED)
    (5, 'b') (5, 'e') RED

/-! ### Supporting lemmas about cell access and the simulation discipline -/

theorem get_location_contents_inv {b : Board} {c : Coord} {v : Option Piece}
    (h : get_location_contents b c = some v) : validCoord c = true ∧ b.grid c = v := by
  unfold get_location_contents at h
  split at h
  · exact ⟨by assumption, by injection h⟩
  · cases h

theorem set_location_inv {b : Board} {c : Coord} {v : Option Piece} {b' : Board}
    (h : set_location b c v = some b') :
    validCoord c = true ∧
      b' = { b with grid := fun x => if x = c then v else b.grid x } := by
  unfold set_location at h
  split at h
  · refine ⟨by assumption, ?_⟩
    injection h with h
    exact h.symm
  · cases h

/-- The simulation of `test_save_general_movement` hands back exactly the
board it was given, as long as the simulated piece really occupies its
recorded source cell. -/
theorem test_save_restores {b : Board} {p : Piece} {mv : Coord} {gc : Color} {r : Bool} {b' : Board}
    (hp : get_location_contents b p.pos = some (some p))
    (h : test_save_general_movement b p mv gc = some (r, b')) : b' = b := by
  obtain ⟨hvp, hgp⟩ := get_location_contents_inv hp
  unfold test_save_general_movement at h
  simp only [bind, Option.bind_eq_some, pure, Option.some.injEq, Prod.mk.injEq] at h
  obtain ⟨save_item, hsv, b1, hb1, b2, hb2, st, hst, b3, hb3, b4, hb4, _hr, hres⟩ := h
  obtain ⟨_, hsvg⟩ := get_location_contents_inv hsv
  obtain ⟨_, hb1e⟩ := set_location_inv hb1
  obtain ⟨_, hb2e⟩ := set_location_inv hb2
  obtain ⟨_, hb3e⟩ := set_location_inv hb3
  obtain ⟨_, hb4e⟩ := set_location_inv hb4
  subst hres hb1e hb2e hb3e hb4e
  cases b with
  | mk g gl cm =>
    simp only [Board.mk.injEq, and_true]
    funext x
    by_cases h1 : x = p.pos
    · subst h1
      simp only [if_pos rfl]
      exact hgp.symm
    · by_cases h2 : x = mv
      · subst h2
        simp only [if_neg h1, if_pos rfl]
        exact hsvg.symm
      · simp only [if_neg h1, if_neg h2]

/-- The simulation never touches the general-location dictionary or the
checkmate flag, hypothesis-free. -/
theorem test_save_frame {b : Board} {p : Piece} {mv : Coord} {gc : Color} {r : Bool} {b' : Board}
    (h : test_save_general_movement b p mv gc = some (r, b')) :
    b'.general_locations = b.general_locations ∧ b'.checkmate = b.checkmate := by
  unfold test_save_general_movement at h
  simp only [bind, Option.bind_eq_some, pure, Option.some.injEq, Prod.mk.injEq] at h
  obtain ⟨save_item, _hsv, b1, hb1, b2, hb2, st, _hst, b3, hb3, b4, hb4, _hr, hres⟩ := h
  obtain ⟨_, hb1e⟩ := set_location_inv hb1
  obtain ⟨_, hb2e⟩ := set_location_inv hb2
  obtain ⟨_, hb3e⟩ := set_location_inv hb3
  obtain ⟨_, hb4e⟩ := set_location_inv hb4
  subst hres hb1e hb2e hb3e hb4e
  exact ⟨rfl, rfl⟩

theorem validCoord_iff_mem_allCoords {c : Coord} : validCoord c = true ↔ c ∈ allCoords := by
  obtain ⟨r, ch⟩ := c
  simp only [validCoord, allCoords, Bool.and_eq_true, decide_eq_true_eq, List.mem_flatMap,
    List.mem_map, List.mem_range'_1, List.contains, List.elem_iff]
  constructor
  · rintro ⟨⟨h1, h2⟩, h3⟩
    exact ⟨r, ⟨h1, by omega⟩, ch, h3, rfl⟩
  · rintro ⟨r', ⟨h1, h2⟩, ch', h3, he⟩
    obtain ⟨he1, he2⟩ := Prod.mk.injEq .. ▸ he
    subst he1
    subst he2
    exact ⟨⟨h1, by omega⟩, h3⟩

/-- From the representation invariant: any piece found in a cell can be
looked up again at its own recorded position. -/
theorem posConsistent_piece {b : Board} (hb : posConsistent b = true) {c : Coord} {p : Piece}
    (hc : c ∈ allCoords) (hg : b.grid c = some p) :
    get_location_contents b p.pos = some (some p) := by
  have h := (List.all_eq_true.mp hb) c hc
  simp only [hg, decide_eq_true_eq] at h
  unfold get_location_contents
  rw [h, if_pos (validCoord_iff_mem_allCoords.mpr hc), hg]

theorem cfbcInner_preserves {item : Piece} {gcolor : Color} {gloc : Coord}
    {l : List Coord} {b : Board} {r : Bool} {b' : Board}
    (hitem : get_location_contents b item.pos = some (some item))
    (h : cfbcInner item gcolor gloc l b = some (r, b')) : b' = b := by
  induction l with
  | nil =>
    simp only [cfbcInner, Option.some.injEq, Prod.mk.injEq] at h
    exact h.2.symm
  | cons pm rest ih =>
    unfold cfbcInner at h
    by_cases hpm : pm ≠ gloc
    · rw [if_pos hpm] at h
      simp only [bind, Option.bind_eq_some] at h
      obtain ⟨ok, _hok, h⟩ := h
      cases ok with
      | false =>
        simp only [Bool.false_eq_true, if_false] at h
        exact ih h
      | true =>
        simp only [if_true] at h
        simp only [bind, Option.bind_eq_some] at h
        obtain ⟨⟨saved, b1⟩, hts, h⟩ := h
        have hb1 : b1 = b := test_save_restores hitem hts
        subst hb1
        cases saved with
        | true =>
          simp only [if_true, pure, Option.some.injEq, Prod.mk.injEq] at h
          exact h.2.symm
        | false =>
          simp only [Bool.false_eq_true, if_false] at h
          exact ih h
    · rw [if_neg hpm] at h
      exact ih h

theorem cfbcOuter_preserves {general : Piece} {gcolor : Color} {gloc : Coord}
    {l : List Coord} {b : Board} {r : Bool} {b' : Board}
    (hcells : ∀ c ∈ l, ∀ item : Piece, b.grid c = some item →
      get_location_contents b item.pos = some (some item))
    (h : cfbcOuter general gcolor gloc l b = some (r, b')) : b' = b := by
  induction l with
  | nil =>
    simp only [cfbcOuter, Option.some.injEq, Prod.mk.injEq] at h
    exact h.2.symm
  | cons c rest ih =>
    have hrest : ∀ x ∈ rest, ∀ item : Piece, b.grid x = some item →
        get_location_contents b item.pos = some (some item) :=
      fun x hx => hcells x (List.mem_cons_of_mem _ hx)
    unfold cfbcOuter at h
    cases hg : b.grid c with
    | none =>
      rw [hg] at h
      exact ih hrest h
    | some item =>
      simp only [hg] at h
      by_cases hid : item = general
      · rw [if_pos hid] at h
        exact ih hrest h
      · rw [if_neg hid] at h
        by_cases hcol : item.color = gcolor
        · rw [if_pos hcol] at h
          simp only [bind, Option.bind_eq_some] at h
          obtain ⟨mr, _hmr, h⟩ := h
          obtain ⟨⟨found, b1⟩, hinner, h⟩ := h
          have hb1 : b1 = b :=
            cfbcInner_preserves (hcells c (List.mem_cons_self c rest) item hg) hinner
          subst hb1
          cases found with
          | true =>
            simp only [if_true, pure, Option.some.injEq, Prod.mk.injEq] at h
            exact h.2.symm
          | false =>
            simp only [Bool.false_eq_true, if_false] at h
            exact ih hrest h
        · rw [if_neg hcol] at h
          exact ih hrest h

/-- `can_friendly_break_check` restores the board it scans, given the
representation invariant. -/
theorem can_friendly_break_check_preserves {b : Board} {general : Piece} {r : Bool} {b' : Board}
    (hb : posConsistent b = true)
    (h : can_friendly_break_check b general = some (r, b')) : b' = b :=
  cfbcOuter_preserves (fun _ hc _ hg => posConsistent_piece hb hc hg) h

theorem cfbcInner_frame {item : Piece} {gcolor : Color} {gloc : Coord}
    {l : List Coord} {b : Board} {r : Bool} {b' : Board}
    (h : cfbcInner item gcolor gloc l b = some (r, b')) :
    b'.general_locations = b.general_locations ∧ b'.checkmate = b.checkmate := by
  induction l generalizing b with
  | nil =>
    simp only [cfbcInner, Option.some.injEq, Prod.mk.injEq] at h
    rw [← h.2]
    exact ⟨rfl, rfl⟩
  | cons pm rest ih =>
    unfold cfbcInner at h
    by_cases hpm : pm ≠ gloc
    · rw [if_pos hpm] at h
      simp only [bind, Option.bind_eq_some] at h
      obtain ⟨ok, _hok, h⟩ := h
      cases ok with
      | false =>
        simp only [Bool.false_eq_true, if_false] at h
        exact ih h
      | true =>
        simp only [if_true, bind, Option.bind_eq_some] at h
        obtain ⟨⟨saved, b1⟩, hts, h⟩ := h
        have hf := test_save_frame hts
        cases saved with
        | true =>
          simp only [if_true, pure, Option.some.injEq, Prod.mk.injEq] at h
          rw [← h.2]
          exact hf
        | false =>
          simp only [Bool.false_eq_true, if_false] at h
          have hr := ih h
          exact ⟨hr.1.trans hf.1, hr.2.trans hf.2⟩
    · rw [if_neg hpm] at h
      exact ih h

theorem cfbcOuter_frame {general : Piece} {gcolor : Color} {gloc : Coord}
    {l : List Coord} {b : Board} {r : Bool} {b' : Board}
    (h : cfbcOuter general gcolor gloc l b = some (r, b')) :
    b'.general_locations = b.general_locations ∧ b'.checkmate = b.checkmate := by
  induction l generalizing b with
  | nil =>
    simp only [cfbcOuter, Option.some.injEq, Prod.mk.injEq] at h
    rw [← h.2]
    exact ⟨rfl, rfl⟩
  | cons c rest ih =>
    unfold cfbcOuter at h
    cases hg : b.grid c with
    | none =>
      rw [hg] at h
      exact ih h
    | some item =>
      simp only [hg] at h
      by_cases hid : item = general
      · rw [if_pos hid] at h
        exact ih h
      · rw [if_neg hid] at h
        by_cases hcol : item.color = gcolor
        · rw [if_pos hcol] at h
          simp only [bind, Option.bind_eq_some] at h
          obtain ⟨mr, _hmr, h⟩ := h
          obtain ⟨⟨found, b1⟩, hinner, h⟩ := h
          have hf := cfbcInner_frame hinner
          cases found with
          | true =>
            simp only [if_true, pure, Option.some.injEq, Prod.mk.injEq] at h
            rw [← h.2]
            exact hf
          | false =>
            simp only [Bool.false_eq_true, if_false] at h
            have hr := ih h
            exact ⟨hr.1.trans hf.1, hr.2.trans hf.2⟩
        · rw [if_neg hcol] at h
          exact ih h

/-- One per-color step of `update_checkmate_status` (the conditional
check-break search followed by the flag assignment) cannot clear a set
flag. -/
theorem stuck_step_monotone {bIn : Board} {g : Piece} {stuck : Bool} {bOut : Board}
    (h : (if stuck then
            (can_friendly_break_check bIn g).bind (fun x =>
              pure (if x.1 then x.2 else { x.2 with checkmate := true }))
          else pure bIn) = some bOut)
    (hcm : bIn.checkmate = true) : bOut.checkmate = true := by
  cases stuck with
  | false =>
    simp only [Bool.false_eq_true, if_false, pure, Option.some.injEq] at h
    rw [← h]
    exact hcm
  | true =>
    simp only [if_true, Option.bind_eq_some] at h
    obtain ⟨⟨canBreak, bc⟩, hcf, h⟩ := h
    have hf := (cfbcOuter_frame hcf).2
    simp only [pure, Option.some.injEq] at h
    cases canBreak with
    | true =>
      rw [← h]
      simpa using hf.trans hcm
    | false =>
      rw [← h]
      simp

/-- The `_checkmate` flag is only ever assigned `True` by
`update_checkmate_status`: a set flag stays set. -/
theorem update_checkmate_status_monotone {b b' : Board}
    (h : update_checkmate_status b = some b') (hcm : b.checkmate = true) :
    b'.checkmate = true := by
  unfold update_checkmate_status at h
  simp only [bind] at h
  rw [Option.bind_eq_some] at h
  obtain ⟨rgo, _h1, h⟩ := h
  rw [Option.bind_eq_some] at h
  obtain ⟨bgo, _h2, h⟩ := h
  rw [Option.bind_eq_some] at h
  obtain ⟨rg, _h3, h⟩ := h
  rw [Option.bind_eq_some] at h
  obtain ⟨redStuck, _h4, h⟩ := h
  cases redStuck with
  | false =>
    simp only [Bool.false_eq_true, if_false, pure, Option.some_bind] at h
    rw [Option.bind_eq_some] at h
    obtain ⟨bg, _h5, h⟩ := h
    rw [Option.bind_eq_some] at h
    obtain ⟨blueStuck, _h6, h⟩ := h
    exact stuck_step_monotone h hcm
  | true =>
    simp only [if_true] at h
    rw [Option.bind_eq_some] at h
    obtain ⟨⟨canBreak, bc⟩, hcf, h⟩ := h
    simp only [pure, Option.some_bind] at h
    have hcm1 : (if canBreak = true then bc else { bc with checkmate := true }).checkmate = true := by
      have hf := (cfbcOuter_frame hcf).2
      cases canBreak with
      | true => simpa using hf.trans hcm
      | false => simp
    rw [Option.bind_eq_some] at h
    obtain ⟨bg, _h5, h⟩ := h
    rw [Option.bind_eq_some] at h
    obtain ⟨blueStuck, _h6, h⟩ := h
    exact stuck_step_monotone h hcm1

/-- In real mode, `pass_legality_check` hands back the board unchanged:
every simulation inside it is reverted. -/
theorem pass_legality_check_real_preserves {b : Board} {mt : Coord} {p : Piece} {t : Color}
    {r : Bool} {b' : Board}
    (hb : posConsistent b = true)
    (hp : get_location_contents b p.pos = some (some p))
    (h : pass_legality_check b mt p t false = some (r, b')) : b' = b := by
  unfold pass_legality_check at h
  simp only [bind, Option.bind_eq_some, Bool.false_eq_true, if_false] at h
  obtain ⟨mr, _hmr, h⟩ := h
  obtain ⟨gen, _hgen, h⟩ := h
  obtain ⟨checked, _hchk, h⟩ := h
  by_cases hcond : checked = true ∧ gen ≠ some p
  · rw [if_pos hcond] at h
    simp only [bind, Option.bind_eq_some] at h
    obtain ⟨g, _hg, h⟩ := h
    obtain ⟨⟨canBreak, b1⟩, hcf, h⟩ := h
    have hb1 : b1 = b := can_friendly_break_check_preserves hb hcf
    by_cases hcb : ¬canBreak = true
    · rw [if_pos hcb] at h
      simp only [pure, Option.some.injEq, Prod.mk.injEq] at h
      exact h.2.symm.trans hb1
    · rw [if_neg hcb] at h
      rw [hb1] at h
      simp only [bind, Option.bind_eq_some] at h
      obtain ⟨⟨saves, b2⟩, hts, h⟩ := h
      have hb2 : b2 = b := test_save_restores hp hts
      by_cases hsv : ¬saves = true
      · rw [if_pos hsv] at h
        simp only [pure, Option.some.injEq, Prod.mk.injEq] at h
        exact h.2.symm.trans hb2
      · rw [if_neg hsv] at h
        simp only [bind, Option.bind_eq_some] at h
        obtain ⟨rr, _hrr, h⟩ := h
        simp only [pure, Option.some.injEq, Prod.mk.injEq] at h
        exact h.2.symm.trans hb2
  · rw [if_neg hcond] at h
    by_cases hchk2 : checked = true
    · rw [if_pos hchk2] at h
      simp only [bind, Option.bind_eq_some] at h
      obtain ⟨safe, _hsafe, h⟩ := h
      by_cases hsf : ¬safe = true
      · rw [if_pos hsf] at h
        simp only [pure, Option.some.injEq, Prod.mk.injEq] at h
        exact h.2.symm
      · rw [if_neg hsf] at h
        simp only [bind, Option.bind_eq_some] at h
        obtain ⟨rr, _hrr, h⟩ := h
        simp only [pure, Option.some.injEq, Prod.mk.injEq] at h
        exact h.2.symm
    · rw [if_neg hchk2] at h
      simp only [bind, Option.bind_eq_some] at h
      obtain ⟨rr, _hrr, h⟩ := h
      simp only [pure, Option.some.injEq, Prod.mk.injEq] at h
      exact h.2.symm

/-- Any `False` outcome of `move_piece` leaves the board exactly as it
was. -/
theorem move_piece_fail_no_mutation {b : Board} {mf mt : Coord} {t : Color} {b' : Board}
    (hb : posConsistent b = true)
    (h : move_piece b mf mt t = some (false, b')) : b' = b := by
  unfold move_piece at h
  simp only [bind, Option.bind_eq_some] at h
  obtain ⟨bp, hbp, h⟩ := h
  cases bp with
  | none =>
    simp only [pure, Option.some.injEq, Prod.mk.injEq] at h
    exact h.2.symm
  | some piece =>
    simp only [bind, Option.bind_eq_some] at h
    obtain ⟨⟨legal, b1⟩, hplc, h⟩ := h
    have hp : get_location_contents b piece.pos = some (some piece) := by
      obtain ⟨hv, hg⟩ := get_location_contents_inv hbp
      exact posConsistent_piece hb (validCoord_iff_mem_allCoords.mp hv) hg
    have hb1 : b1 = b := pass_legality_check_real_preserves hb hp hplc
    cases legal with
    | false =>
      rw [if_pos rfl] at h
      simp only [pure, Option.some.injEq, Prod.mk.injEq] at h
      exact h.2.symm.trans hb1
    | true =>
      simp only [Bool.true_eq_false, if_false, bind, Option.bind_eq_some] at h
      obtain ⟨b2, _hb2, h⟩ := h
      obtain ⟨b3, _hb3, h⟩ := h
      simp only [pure, Option.some.injEq, Prod.mk.injEq] at h
      exact absurd h.1 (by simp)

theorem mem_kind_list (k : Kind) : k ∈ [GENERAL, GUARD, HORSE, ELEPHANT, CHARIOT, CANNON, SOLDIER] := by
  cases k <;> simp

theorem mem_color_list (col : Color) : col ∈ [RED, BLUE] := by
  cases col <;> simp

set_option maxRecDepth 100000 in
set_option maxHeartbeats 4000000 in
/-- Exhaustive check over every piece kind, color and on-board position:
the movement range (when it is produced) stays on the board and never
contains the piece's own square, and it is produced except for a General or
Guard on column i. -/
theorem range_master :
    ([RED, BLUE].all (fun col =>
      [GENERAL, GUARD, HORSE, ELEPHANT, CHARIOT, CANNON, SOLDIER].all (fun k =>
        allCoords.all (fun c =>
          (match get_movement_range ⟨k, col, c⟩ with
           | some mr => mr.all (fun x => validCoord x) && !(mr.contains c)
           | none => true) &&
          (if (k = GENERAL ∨ k = GUARD) ∧ c.2 = 'i' then true
           else (get_movement_range ⟨k, col, c⟩).isSome))))) = true := by
  decide

theorem range_facts {p : Piece} (hv : validCoord p.pos = true) :
    (∀ mr, get_movement_range p = some mr → (∀ x ∈ mr, validCoord x = true) ∧ p.pos ∉ mr) ∧
    (((p.kind = GENERAL ∨ p.kind = GUARD) → p.pos.2 ≠ 'i') →
      (get_movement_range p).isSome = true) := by
  obtain ⟨k, col, c⟩ := p
  have h1 := List.all_eq_true.mp range_master col (mem_color_list col)
  have h2 := List.all_eq_true.mp h1 k (mem_kind_list k)
  have h3 := List.all_eq_true.mp h2 c (validCoord_iff_mem_allCoords.mp hv)
  rw [Bool.and_eq_true] at h3
  obtain ⟨hmatch, hisSome⟩ := h3
  constructor
  · intro mr hmr
    simp only [hmr, Bool.and_eq_true] at hmatch
    constructor
    · intro x hx
      exact List.all_eq_true.mp hmatch.1 x hx
    · intro hcmem
      have hc2 : mr.contains c = true := List.elem_iff.mpr hcmem
      have := hmatch.2
      rw [hc2] at this
      simp at this
  · intro hk
    by_cases hcase : (k = GENERAL ∨ k = GUARD) ∧ c.2 = 'i'
    · exact absurd hcase.2 (hk hcase.1)
    · rw [if_neg hcase] at hisSome
      exact hisSome

theorem get_movement_range_valid {p : Piece} {mr : List Coord} (hv : validCoord p.pos = true)
    (h : get_movement_range p = some mr) {x : Coord} (hx : x ∈ mr) : validCoord x = true :=
  ((range_facts hv).1 mr h).1 x hx

theorem self_not_mem_range {p : Piece} {mr : List Coord} (hv : validCoord p.pos = true)
    (h : get_movement_range p = some mr) : p.pos ∉ mr :=
  ((range_facts hv).1 mr h).2

theorem get_movement_range_total {p : Piece} (hv : validCoord p.pos = true)
    (hk : (p.kind = GENERAL ∨ p.kind = GUARD) → p.pos.2 ≠ 'i') :
    (get_movement_range p).isSome = true :=
  (range_facts hv).2 hk

/-- Any CANNON move whose destination holds a CANNON is rejected by the
shared legality tail, before any path rule is consulted. -/
theorem legality_tail_cannon_cannon {b : Board} {mt : Coord} {p : Piece} {t : Color}
    {mr : List Coord} {d : Piece} {r : Bool}
    (hpk : p.kind = CANNON) (hv : validCoord mt = true) (hd : b.grid mt = some d)
    (hdk : d.kind = CANNON)
    (h : legality_tail b mt p t mr = some r) : r = false := by
  have hget : get_location_contents b mt = some (some d) := by
    unfold get_location_contents
    rw [if_pos hv, hd]
  unfold legality_tail at h
  by_cases h1 : p.color ≠ t
  · rw [if_pos h1] at h
    simp only [pure, Option.some.injEq] at h
    exact h.symm
  · rw [if_neg h1] at h
    by_cases h2 : mt ∉ mr
    · rw [if_pos h2] at h
      simp only [pure, Option.some.injEq] at h
      exact h.symm
    · rw [if_neg h2] at h
      rw [hget] at h
      simp only [bind, Option.some_bind] at h
      by_cases h3 : (decide (p.color = d.color) : Bool) = true
      · rw [if_pos h3] at h
        simp only [pure, Option.some.injEq] at h
        exact h.symm
      · rw [if_neg h3] at h
        have hcc : (decide (p.kind = CANNON) && decide (d.kind = CANNON)) = true := by
          simp [hpk, hdk]
        rw [if_pos hcc] at h
        simp only [pure, Option.some.injEq] at h
        exact h.symm

/-- What an accepted move must satisfy according to the legality tail:
right color, in range, valid destination cell, and no friendly piece on the
destination. -/
theorem legality_tail_true_inv {b : Board} {mt : Coord} {p : Piece} {t : Color}
    {mr : List Coord}
    (h : legality_tail b mt p t mr = some true) :
    p.color = t ∧ mt ∈ mr ∧ validCoord mt = true ∧
      (∀ d : Piece, b.grid mt = some d → d.color ≠ p.color) := by
  unfold legality_tail at h
  by_cases h1 : p.color ≠ t
  · rw [if_pos h1] at h
    simp [pure] at h
  · rw [if_neg h1] at h
    by_cases h2 : mt ∉ mr
    · rw [if_pos h2] at h
      simp [pure] at h
    · rw [if_neg h2] at h
      rw [Option.bind_eq_some] at h
      obtain ⟨dest, hdest, h⟩ := h
      obtain ⟨hvmt, hgrid⟩ := get_location_contents_inv hdest
      cases dest with
      | none =>
        refine ⟨not_not.mp h1, not_not.mp h2, hvmt, ?_⟩
        intro d hgd _heq
        cases hgrid.symm.trans hgd
      | some dd =>
        dsimp only at h
        by_cases h3 : (decide (p.color = dd.color)) = true
        · rw [if_pos h3] at h
          simp [pure] at h
        · refine ⟨not_not.mp h1, not_not.mp h2, hvmt, ?_⟩
          intro d hgd heq
          have hdd : dd = d := by
            have := hgrid.symm.trans hgd
            injection this
          apply h3
          rw [hdd]
          simp [heq]

/-- A `True` outcome of the real legality check also certifies that the
shared legality tail accepted the move on the original board. -/
theorem pass_legality_check_true_tail {b : Board} {mt : Coord} {p : Piece} {t : Color} {b' : Board}
    (hb : posConsistent b = true)
    (hp : get_location_contents b p.pos = some (some p))
    (h : pass_legality_check b mt p t false = some (true, b')) :
    b' = b ∧ ∃ mr, get_movement_range p = some mr ∧ legality_tail b mt p t mr = some true := by
  have hpres : b' = b := pass_legality_check_real_preserves hb hp h
  refine ⟨hpres, ?_⟩
  unfold pass_legality_check at h
  simp only [bind, Option.bind_eq_some, Bool.false_eq_true, if_false] at h
  obtain ⟨mr, hmr, h⟩ := h
  obtain ⟨gen, _hgen, h⟩ := h
  obtain ⟨checked, _hchk, h⟩ := h
  refine ⟨mr, hmr, ?_⟩
  by_cases hcond : checked = true ∧ gen ≠ some p
  · rw [if_pos hcond] at h
    simp only [bind, Option.bind_eq_some] at h
    obtain ⟨g, _hg, h⟩ := h
    obtain ⟨⟨canBreak, b1⟩, hcf, h⟩ := h
    have hb1 : b1 = b := can_friendly_break_check_preserves hb hcf
    by_cases hcb : ¬canBreak = true
    · rw [if_pos hcb] at h
      simp [pure] at h
    · rw [if_neg hcb] at h
      rw [hb1] at h
      simp only [bind, Option.bind_eq_some] at h
      obtain ⟨⟨saves, b2⟩, hts, h⟩ := h
      have hb2 : b2 = b := test_save_restores hp hts
      by_cases hsv : ¬saves = true
      · rw [if_pos hsv] at h
        simp [pure] at h
      · rw [if_neg hsv] at h
        rw [hb2] at h
        simp only [bind, Option.bind_eq_some] at h
        obtain ⟨rr, hrr, h⟩ := h
        simp only [pure, Option.some.injEq, Prod.mk.injEq] at h
        rw [h.1] at hrr
        exact hrr
  · rw [if_neg hcond] at h
    by_cases hchk2 : checked = true
    · rw [if_pos hchk2] at h
      simp only [bind, Option.bind_eq_some] at h
      obtain ⟨safe, _hs, h⟩ := h
      by_cases hsf : ¬safe = true
      · rw [if_pos hsf] at h
        simp [pure] at h
      · rw [if_neg hsf] at h
        simp only [bind, Option.bind_eq_some] at h
        obtain ⟨rr, hrr, h⟩ := h
        simp only [pure, Option.some.injEq, Prod.mk.injEq] at h
        rw [h.1] at hrr
        exact hrr
    · rw [if_neg hchk2] at h
      simp only [bind, Option.bind_eq_some] at h
      obtain ⟨rr, hrr, h⟩ := h
      simp only [pure, Option.some.injEq, Prod.mk.injEq] at h
      rw [h.1] at hrr
      exact hrr

/-- Everything a successful `move_piece` guarantees: which piece moved,
that the move was accepted by the legality tail, and the exact final grid
and general-location dictionary. -/
theorem move_piece_success_inv {b : Board} {mf mt : Coord} {t : Color} {b' : Board}
    (hb : posConsistent b = true)
    (h : move_piece b mf mt t = some (true, b')) :
    ∃ piece : Piece, b.grid mf = some piece ∧ validCoord mf = true ∧ validCoord mt = true ∧
      piece.color = t ∧ mt ≠ mf ∧
      (∀ d : Piece, b.grid mt = some d → d.color ≠ t) ∧
      b'.grid = (fun x =>
        if x = mf then none else if x = mt then some { piece with pos := mt } else b.grid x) ∧
      b'.general_locations = (fun col =>
        if piece.kind = GENERAL ∧ col = t then mt else b.general_locations col) ∧
      b'.checkmate = b.checkmate := by
  unfold move_piece at h
  simp only [bind, Option.bind_eq_some] at h
  obtain ⟨bp, hbp, h⟩ := h
  obtain ⟨hvf, hgf⟩ := get_location_contents_inv hbp
  cases bp with
  | none =>
    simp [pure] at h
  | some piece =>
    simp only [bind, Option.bind_eq_some] at h
    obtain ⟨⟨legal, b1⟩, hplc, h⟩ := h
    have hp : get_location_contents b piece.pos = some (some piece) :=
      posConsistent_piece hb (validCoord_iff_mem_allCoords.mp hvf) hgf
    have hpos : piece.pos = mf := by
      have hall := (List.all_eq_true.mp hb) mf (validCoord_iff_mem_allCoords.mp hvf)
      simp only [hgf, decide_eq_true_eq] at hall
      exact hall
    cases legal with
    | false =>
      rw [if_pos rfl] at h
      simp [pure] at h
    | true =>
      simp only [Bool.true_eq_false, if_false, bind, Option.bind_eq_some] at h
      obtain ⟨hb1, hmrtail⟩ := pass_legality_check_true_tail hb hp hplc
      obtain ⟨mr, hmr, htail⟩ := hmrtail
      obtain ⟨hcolor, hmem, hvmt, hfriendly⟩ := legality_tail_true_inv htail
      have hneq : mt ≠ mf := by
        intro he
        have hnotmem := self_not_mem_range (hpos ▸ hvf) hmr
        rw [hpos, ← he] at hnotmem
        exact hnotmem hmem
      obtain ⟨b2, hb2, h⟩ := h
      obtain ⟨b3, hb3, h⟩ := h
      obtain ⟨hv2, hb2e⟩ := set_location_inv hb2
      obtain ⟨hv3, hb3e⟩ := set_location_inv hb3
      simp only [pure, Option.some.injEq, Prod.mk.injEq] at h
      refine ⟨piece, hgf, hvf, hvmt, hcolor, hneq, ?_, ?_, ?_, ?_⟩
      · intro d hgd
        exact fun hdc => hfriendly d hgd (hcolor ▸ hdc)
      · rw [← h.2]
        subst hb1 hb2e hb3e
        by_cases hk : piece.kind = GENERAL
        · rw [if_pos hk]
        · rw [if_neg hk]
      · rw [← h.2]
        subst hb1 hb2e hb3e
        by_cases hk : piece.kind = GENERAL
        · rw [if_pos hk]
          funext col
          by_cases hc : col = t <;> simp [hk, hc]
        · rw [if_neg hk]
          funext col
          simp [hk]
      · rw [← h.2]
        subst hb1 hb2e hb3e
        by_cases hk : piece.kind = GENERAL
        · rw [if_pos hk]
        · rw [if_neg hk]

theorem eq_otherColor {c t : Color} (h : ¬c = t) : c = otherColor t := by
  cases c <;> cases t <;> simp_all [otherColor]

/-- After a successful move that does not land on the opposing General's
recorded square, the general-location dictionary still points at a General
of the right color for both sides. -/
theorem move_piece_keeps_general_locations {b : Board} {mf mt : Coord} {t : Color} {b' : Board}
    (hb : posConsistent b = true) (hacc : generalLocationsAccurate b = true)
    (hnc : mt ≠ b.general_locations (otherColor t))
    (h : move_piece b mf mt t = some (true, b')) :
    generalLocationsAccurate b' = true := by
  obtain ⟨piece, hgf, hvf, hvmt, hcolor, hneq, hfr, hgrid', hgl', _hcm'⟩ :=
    move_piece_success_inv hb h
  have haccf := List.all_eq_true.mp hacc
  unfold generalLocationsAccurate
  rw [List.all_eq_true]
  intro col hcol
  have hcolacc := haccf col hcol
  rw [Bool.and_eq_true] at hcolacc
  obtain ⟨hvl, hmatch⟩ := hcolacc
  cases hgcell : b.grid (b.general_locations col) with
  | none =>
    rw [hgcell] at hmatch
    simp at hmatch
  | some gcol =>
    rw [hgcell] at hmatch
    simp only [Bool.and_eq_true, decide_eq_true_eq] at hmatch
    obtain ⟨hgk, hgc⟩ := hmatch
    simp only [hgl', hgrid']
    by_cases hcase : piece.kind = GENERAL ∧ col = t
    · rw [if_pos hcase]
      rw [if_neg hneq, if_pos rfl]
      simp [hvmt, hcase.1, hcolor, hcase.2]
    · rw [if_neg hcase]
      have hlmf : b.general_locations col ≠ mf := by
        intro he
        have hpg : piece = gcol := by
          have h1 : b.grid mf = some gcol := he ▸ hgcell
          have h2 := hgf.symm.trans h1
          injection h2
        by_cases hct : col = t
        · exact hcase ⟨by rw [hpg]; exact hgk, hct⟩
        · apply hct
          rw [← hgc, ← hpg, hcolor]
      have hlmt : b.general_locations col ≠ mt := by
        intro he
        by_cases hct : col = t
        · exact hfr gcol (he ▸ hgcell) (hgc.trans hct)
        · apply hnc
          rw [← eq_otherColor hct]
          exact he.symm
      rw [if_neg (fun he => hlmf he), if_neg (fun he => hlmt he), hgcell]
      simp [hvl, hgk, hgc]

/-- In hypothetical mode the legality check is the legality tail on the
untouched board. -/
theorem pass_legality_check_hyp_inv {b : Board} {mt : Coord} {p : Piece} {t : Color}
    {r : Bool} {b' : Board}
    (h : pass_legality_check b mt p t true = some (r, b')) :
    b' = b ∧ ∃ mr, get_movement_range p = some mr ∧ legality_tail b mt p t mr = some r := by
  unfold pass_legality_check at h
  simp only [bind, Option.bind_eq_some, if_true] at h
  obtain ⟨mr, hmr, h⟩ := h
  obtain ⟨gen, _hgen, h⟩ := h
  obtain ⟨rr, hrr, h⟩ := h
  simp only [pure, Option.some.injEq, Prod.mk.injEq] at h
  refine ⟨h.2.symm, mr, hmr, ?_⟩
  rw [h.1] at hrr
  exact hrr

/-- Lists the escape options of `is_general_stuck` as a universally
quantified statement over the general's range. -/
theorem escapeOptions_nil_iff {b : Board} {general : Piece} {gcolor : Color} {zone : List Coord} :
    ∀ {l : List Coord} {esc : List Coord},
      escapeOptions b general gcolor zone l = some esc →
      (esc = [] ↔ ∀ o ∈ l, o ∈ zone ∨ pass_legality_hyp b o general gcolor = some false) := by
  intro l
  induction l with
  | nil =>
    intro esc h
    simp only [escapeOptions, Option.some.injEq] at h
    simp [← h]
  | cons o rest ih =>
    intro esc h
    unfold escapeOptions at h
    by_cases hz : o ∈ zone
    · rw [if_pos hz] at h
      rw [ih h]
      constructor
      · intro hall x hx
        rcases List.mem_cons.mp hx with hx1 | hx2
        · subst hx1
          exact Or.inl hz
        · exact hall x hx2
      · intro hall x hx
        exact hall x (List.mem_cons_of_mem _ hx)
    · rw [if_neg hz] at h
      simp only [bind, Option.bind_eq_some] at h
      obtain ⟨ok, hok, h⟩ := h
      obtain ⟨restEsc, hrest, h⟩ := h
      simp only [pure, Option.some.injEq] at h
      cases ok with
      | true =>
        rw [if_pos rfl] at h
        constructor
        · intro he
          rw [← h] at he
          cases he
        · intro hall
          rcases hall o (List.mem_cons_self o rest) with hc | hc
          · exact absurd hc hz
          · rw [hok] at hc
            cases hc
      | false =>
        rw [if_neg (by simp)] at h
        rw [← h]
        rw [ih hrest]
        constructor
        · intro hall x hx
          rcases List.mem_cons.mp hx with hx1 | hx2
          · subst hx1
            exact Or.inr hok
          · exact hall x hx2
        · intro hall x hx
          exact hall x (List.mem_cons_of_mem _ hx)

/-! ### Claim C1 -/

/-- C1: for every board state, friendly piece (occupying its recorded source
cell) and destination square, `test_save_general_movement` returns with the
grid restored to its exact pre-simulation state — the simulated piece back on
its source cell, the destination cell holding its original occupant again,
no other cell changed — unconditionally, on both the check-cleared and the
check-remains outcomes. -/
theorem C1_simulation_restores_board (b : Board) (p : Piece) (mv : Coord) (gc : Color)
    (hp : get_location_contents b p.pos = some (some p)) :
    ∀ r b', test_save_general_movement b p mv gc = some (r, b') → b' = b :=
  fun _ _ h => test_save_restores hp h

theorem C1_witness :
    ∃ r : Bool,
      test_save_general_movement initial_board ⟨SOLDIER, BLUE, (7, 'a')⟩ (6, 'a') BLUE =
        some (r, initial_board) := by
  have hs : (test_save_general_movement initial_board ⟨SOLDIER, BLUE, (7, 'a')⟩ (6, 'a') BLUE).isSome
      = true := by decide
  obtain ⟨⟨r, b'⟩, hx⟩ := Option.isSome_iff_exists.mp hs
  have hb : b' = initial_board :=
    C1_simulation_restores_board initial_board ⟨SOLDIER, BLUE, (7, 'a')⟩ (6, 'a') BLUE
      (by decide) r b' hx
  refine ⟨r, ?_⟩
  rw [hx, hb]

/-! ### Claim C3 -/

/-- C3: whenever the source square is empty or the legality check fails,
`move_piece` returns `False` and mutates nothing — the grid (hence every
piece and its recorded position) and the general-location map are exactly as
before the call; only the `True` path mutates. -/
theorem C3_failed_move_changes_nothing (b : Board) (mf mt : Coord) (t : Color)
    (hb : posConsistent b = true) :
    (get_location_contents b mf = some none → move_piece b mf mt t = some (false, b)) ∧
    (∀ piece : Piece, get_location_contents b mf = some (some piece) →
      ∀ b1, pass_legality_check b mt piece t false = some (false, b1) →
        move_piece b mf mt t = some (false, b)) ∧
    (∀ b', move_piece b mf mt t = some (false, b') → b' = b) := by
  refine ⟨?_, ?_, fun b' h => move_piece_fail_no_mutation hb h⟩
  · intro he
    unfold move_piece
    rw [he]
    rfl
  · intro piece hp b1 hplc
    have hpp : get_location_contents b piece.pos = some (some piece) := by
      obtain ⟨hv, hg⟩ := get_location_contents_inv hp
      exact posConsistent_piece hb (validCoord_iff_mem_allCoords.mp hv) hg
    have hb1 : b1 = b := pass_legality_check_real_preserves hb hpp hplc
    unfold move_piece
    rw [hp]
    simp only [bind, Option.some_bind]
    rw [hplc]
    simp only [bind, Option.some_bind]
    rw [if_pos trivial, hb1]
    rfl

theorem C3_witness :
    move_piece initial_board (5, 'a') (6, 'a') BLUE = some (false, initial_board) :=
  (C3_failed_move_changes_nothing initial_board (5, 'a') (6, 'a') BLUE (by decide)).1 (by decide)

/-! ### Claim C5 -/

/-- C5: on any position-consistent board, a move by a Cannon onto a square
occupied by a Cannon (either color) is rejected by `pass_legality_check` in
both modes, and hence by `move_piece`, regardless of the path between
them. -/
theorem C5_cannon_never_captures_cannon (b : Board) (mf mt : Coord) (t : Color) (p d : Piece)
    (hb : posConsistent b = true)
    (hpf : get_location_contents b mf = some (some p)) (hpk : p.kind = CANNON)
    (hdt : get_location_contents b mt = some (some d)) (hdk : d.kind = CANNON) :
    (∀ hyp : Bool, ∀ x : Bool × Board, pass_legality_check b mt p t hyp = some x →
      x.1 = false) ∧
    (∀ y : Bool × Board, move_piece b mf mt t = some y → y.1 = false) := by
  obtain ⟨hvmt, hgd⟩ := get_location_contents_inv hdt
  obtain ⟨hvmf, hgf⟩ := get_location_contents_inv hpf
  have hpp : get_location_contents b p.pos = some (some p) :=
    posConsistent_piece hb (validCoord_iff_mem_allCoords.mp hvmf) hgf
  have hplc : ∀ hyp : Bool, ∀ x : Bool × Board, pass_legality_check b mt p t hyp = some x →
      x.1 = false := by
    intro hyp x hx
    obtain ⟨r, bx⟩ := x
    cases r with
    | false => rfl
    | true =>
      exfalso
      cases hyp with
      | true =>
        obtain ⟨_, mr, _hmr, htail⟩ := pass_legality_check_hyp_inv hx
        exact absurd (legality_tail_cannon_cannon hpk hvmt hgd hdk htail) (by simp)
      | false =>
        obtain ⟨_, mr, _hmr, htail⟩ := pass_legality_check_true_tail hb hpp hx
        exact absurd (legality_tail_cannon_cannon hpk hvmt hgd hdk htail) (by simp)
  refine ⟨hplc, ?_⟩
  intro y hy
  obtain ⟨ry, by2⟩ := y
  cases ry with
  | false => rfl
  | true =>
    exfalso
    unfold move_piece at hy
    simp only [bind, Option.bind_eq_some] at hy
    obtain ⟨bp, hbp, hy⟩ := hy
    have hbpp : bp = some p := by
      rw [hpf] at hbp
      injection hbp with he
      exact he.symm
    subst hbpp
    simp only [bind, Option.bind_eq_some] at hy
    obtain ⟨⟨legal, b1⟩, hplc2, hy⟩ := hy
    have := hplc false (legal, b1) hplc2
    simp only at this
    subst this
    rw [if_pos rfl] at hy
    simp [pure] at hy

theorem C5_witness : (move_piece initial_board (3, 'b') (8, 'b') RED).map Prod.fst ≠ some true := by
  intro hmap
  obtain ⟨y, hy, hfst⟩ := Option.map_eq_some'.mp hmap
  have := (C5_cannon_never_captures_cannon initial_board (3, 'b') (8, 'b') RED
    ⟨CANNON, RED, (3, 'b')⟩ ⟨CANNON, BLUE, (8, 'b')⟩
    (by decide) (by decide) rfl (by decide) rfl).2 y hy
  rw [hfst] at this
  cases this

theorem contains_true_ne_false {c : Char} (h : alphabetL.contains c = true) :
    ¬(alphabetL.contains c = false) := by
  rw [h]
  simp

/-! ### Claim C2 -/

/-- C2 is refuted as stated: the input pair ("ab", "a1") passes every syntax
check of `make_move` (letter column, length 2), yet `int("b")` raises a
ValueError inside `parse_coordinate` — modelled as `none` — instead of the
move being rejected with `False`. -/
theorem C2_counterexample : make_move initial_game "ab" "a1" = none := by
  have h : (make_move initial_game "ab" "a1").isNone = true := by decide
  exact Option.isNone_iff_eq_none.mp h

/-- C2 (amended): `make_move` rejects with `False`, before any board
interaction and with the game unchanged, exactly the inputs that fail its
syntax checks — a non-letter first character (source checked first, with
short-circuiting), a string shorter than two characters, a three-character
source whose tail is not "10", or (only when the source is not three
characters long) such a destination.  Rows are otherwise not validated, so
other malformed inputs raise exceptions instead of returning `False`. -/
theorem C2_validation_rejects_with_false (g : Game) (mf mt : String) :
    ((∃ c, mf.toList.head? = some c ∧ alphabetL.contains c.toLower = false) →
      make_move g mf mt = some (false, g)) ∧
    ((∃ c, mf.toList.head? = some c ∧ alphabetL.contains c.toLower = true) →
      (∃ d, mt.toList.head? = some d ∧ alphabetL.contains d.toLower = false) →
      make_move g mf mt = some (false, g)) ∧
    ((∃ c, mf.toList.head? = some c ∧ alphabetL.contains c.toLower = true) →
      (∃ d, mt.toList.head? = some d ∧ alphabetL.contains d.toLower = true) →
      (mf.length < 2 ∨ mt.length < 2) →
      make_move g mf mt = some (false, g)) ∧
    ((∃ c, mf.toList.head? = some c ∧ alphabetL.contains c.toLower = true) →
      (∃ d, mt.toList.head? = some d ∧ alphabetL.contains d.toLower = true) →
      ¬(mf.length < 2 ∨ mt.length < 2) → mf.length = 3 →
      ¬(mf.toList.get? 1 = some '1' ∧ mf.toList.get? 2 = some '0') →
      make_move g mf mt = some (false, g)) ∧
    ((∃ c, mf.toList.head? = some c ∧ alphabetL.contains c.toLower = true) →
      (∃ d, mt.toList.head? = some d ∧ alphabetL.contains d.toLower = true) →
      ¬(mf.length < 2 ∨ mt.length < 2) → mf.length ≠ 3 → mt.length = 3 →
      ¬(mt.toList.get? 1 = some '1' ∧ mt.toList.get? 2 = some '0') →
      make_move g mf mt = some (false, g)) := by
  refine ⟨?_, ?_, ?_, ?_, ?_⟩
  · rintro ⟨c, hc, hcl⟩
    unfold make_move
    rw [hc]
    simp only [bind, Option.some_bind]
    rw [if_pos hcl]
    rfl
  · rintro ⟨c, hc, hcl⟩ ⟨d, hd, hdl⟩
    unfold make_move
    rw [hc]
    simp only [bind, Option.some_bind]
    rw [if_neg (contains_true_ne_false hcl), hd]
    simp only [bind, Option.some_bind]
    rw [if_pos hdl]
    rfl
  · rintro ⟨c, hc, hcl⟩ ⟨d, hd, hdl⟩ hlen
    unfold make_move
    rw [hc]
    simp only [bind, Option.some_bind]
    rw [if_neg (contains_true_ne_false hcl), hd]
    simp only [bind, Option.some_bind]
    rw [if_neg (contains_true_ne_false hdl), if_pos hlen]
    rfl
  · rintro ⟨c, hc, hcl⟩ ⟨d, hd, hdl⟩ hlen h3 hpat
    unfold make_move
    rw [hc]
    simp only [bind, Option.some_bind]
    rw [if_neg (contains_true_ne_false hcl), hd]
    simp only [bind, Option.some_bind]
    rw [if_neg (contains_true_ne_false hdl), if_neg hlen, if_pos h3, if_pos hpat]
    rfl
  · rintro ⟨c, hc, hcl⟩ ⟨d, hd, hdl⟩ hlen h3f h3t hpat
    unfold make_move
    rw [hc]
    simp only [bind, Option.some_bind]
    rw [if_neg (contains_true_ne_false hcl), hd]
    simp only [bind, Option.some_bind]
    rw [if_neg (contains_true_ne_false hdl), if_neg hlen, if_neg h3f, if_pos h3t, if_pos hpat]
    rfl

theorem C2_witness : make_move initial_game "z1" "a1" = some (false, initial_game) :=
  (C2_validation_rejects_with_false initial_game "z1" "a1").1 ⟨'z', rfl, by decide⟩

/-! ### Claim C4 -/

/-- C4 is refuted as stated: on `blocked_chariots_board` the source's
`is_general_stuck` finds escape squares (the chariots' raw reach is filtered
out by the hypothetical legality check, their paths being blocked), while the
claim's predicate over the UNFILTERED threat zone declares the General
stuck. -/
theorem C4_counterexample :
    is_general_stuck blocked_chariots_board blocked_chariots_general RED = some false ∧
    claimed_is_general_stuck blocked_chariots_board blocked_chariots_general RED = some true :=
  ⟨by decide, by decide⟩

/-- C4 (amended): `is_general_stuck` returns `True` iff every raw
destination in the General's movement range is either in the enemy's
hypothetical-legality-FILTERED threat zone (`checkZoneOuter` keeps exactly
the enemy raw-range squares that pass the hypothetical legality check) or
itself fails the hypothetical legality check for the General. -/
theorem C4_stuck_iff_filtered_zone (b : Board) (general : Piece) (opp : Color) (r : Bool)
    (h : is_general_stuck b general opp = some r) :
    ∃ zone general_range,
      checkZoneOuter b opp allCoords = some zone ∧
      get_movement_range general = some general_range ∧
      (r = true ↔ ∀ o ∈ general_range,
        o ∈ zone ∨ pass_legality_hyp b o general general.color = some false) := by
  unfold is_general_stuck at h
  simp only [bind, Option.bind_eq_some] at h
  obtain ⟨gr, hgr, h⟩ := h
  obtain ⟨zone, hzone, h⟩ := h
  obtain ⟨esc, hesc, h⟩ := h
  simp only [pure, Option.some.injEq] at h
  refine ⟨zone, gr, hzone, hgr, ?_⟩
  rw [← h]
  simp only [decide_eq_true_eq, List.length_eq_zero]
  exact escapeOptions_nil_iff hesc

theorem C4_witness :
    ∃ zone general_range,
      checkZoneOuter blocked_chariots_board RED allCoords = some zone ∧
      get_movement_range blocked_chariots_general = some general_range ∧
      (false = true ↔ ∀ o ∈ general_range,
        o ∈ zone ∨ pass_legality_hyp blocked_chariots_board o blocked_chariots_general
          blocked_chariots_general.color = some false) :=
  C4_stuck_iff_filtered_zone blocked_chariots_board blocked_chariots_general RED false (by decide)

/-! ### Claim C6 -/

/-- C6 is refuted as stated: a General on column i is an on-board position,
yet its `get_movement_range` raises IndexError (`alphabet[9]`) rather than
returning. -/
theorem C6_counterexample : get_movement_range ⟨GENERAL, RED, (2, 'i')⟩ = none := by decide

/-- C6 (amended): for every piece at an on-board position, whenever
`get_movement_range` returns, every coordinate in it is on the 10x9 board
(row 1-10, column a-i); and it does return for every piece except a General
or Guard on column i, whose sideways indexing raises IndexError. -/
theorem C6_ranges_stay_on_board (p : Piece) (hv : validCoord p.pos = true) :
    (∀ mr, get_movement_range p = some mr → ∀ x ∈ mr, validCoord x = true) ∧
    (((p.kind = GENERAL ∨ p.kind = GUARD) → p.pos.2 ≠ 'i') →
      (get_movement_range p).isSome = true) :=
  ⟨fun _mr h _x hx => get_movement_range_valid hv h hx, fun hk => get_movement_range_total hv hk⟩

theorem C6_witness :
    validCoord (6, 'a') = true ∧
      (get_movement_range ⟨SOLDIER, BLUE, (7, 'a')⟩).isSome = true := by
  constructor
  · exact (C6_ranges_stay_on_board ⟨SOLDIER, BLUE, (7, 'a')⟩ (by decide)).1
      [(6, 'a'), (7, 'b')] (by decide) (6, 'a') (by decide)
  · exact (C6_ranges_stay_on_board ⟨SOLDIER, BLUE, (7, 'a')⟩ (by decide)).2 (by decide)

/-! ### Claim C7 -/

/-- C7 is refuted as stated: on `capture_general_board` the BLUE Chariot
legally captures the RED General; `move_piece` succeeds and leaves the
general-location entry for RED pointing at a square that now holds the BLUE
Chariot. -/
theorem C7_counterexample :
    (move_piece capture_general_board (5, 'e') (2, 'e') BLUE).map
      (fun x => (x.1, generalLocationsAccurate x.2)) = some (true, false) := by
  decide

/-- C7 (amended): after every successful `move_piece` from a consistent
board whose general-location map is accurate, the map is accurate again —
updated when a General moves — provided the destination is not the square
recorded for the opposing General (capturing the enemy General is legal and
leaves that entry pointing at the capturing piece's square). -/
theorem C7_map_synced_unless_general_captured (b : Board) (mf mt : Coord) (t : Color) (b' : Board)
    (hb : posConsistent b = true) (hacc : generalLocationsAccurate b = true)
    (hnc : mt ≠ b.general_locations (otherColor t))
    (h : move_piece b mf mt t = some (true, b')) :
    generalLocationsAccurate b' = true :=
  move_piece_keeps_general_locations hb hacc hnc h

theorem C7_witness :
    ∃ b', move_piece initial_board (7, 'a') (6, 'a') BLUE = some (true, b') ∧
      generalLocationsAccurate b' = true := by
  have hs : (move_piece initial_board (7, 'a') (6, 'a') BLUE).map Prod.fst = some true := by
    decide
  obtain ⟨⟨r, b'⟩, hx⟩ : ∃ x, move_piece initial_board (7, 'a') (6, 'a') BLUE = some x := by
    cases hmp : move_piece initial_board (7, 'a') (6, 'a') BLUE with
    | none => rw [hmp] at hs; cases hs
    | some x => exact ⟨x, rfl⟩
  have hr : r = true := by
    rw [hx] at hs
    simpa using hs
  subst hr
  exact ⟨b', hx, C7_map_synced_unless_general_captured initial_board (7, 'a') (6, 'a') BLUE b'
    (by decide) (by decide) (by decide) hx⟩

/-! ### Claim C8 -/

/-- C8: `make_move` with equal source and destination strings, while the
game is unfinished and the mover is not in check, returns `True` and flips
the turn without touching the board; passing while in check never succeeds
(any returned outcome is `False`); and on the fresh game, passing with
"e9" returns `True` and the turn becomes RED. -/
theorem C8_pass_flips_turn :
    (∀ (g : Game) (s : String), g.game_state = UNFINISHED →
      g.is_in_check g.current_turn = false →
      2 ≤ s.length →
      (∃ c, s.toList.head? = some c ∧ alphabetL.contains c.toLower = true) →
      (s.length = 3 → s.toList.get? 1 = some '1' ∧ s.toList.get? 2 = some '0') →
      make_move g s s = some (true, change_turn g)) ∧
    (∀ (g : Game) (s : String) (r : Bool) (g' : Game),
      posConsistent g.current_board = true →
      g.is_in_check g.current_turn = true →
      make_move g s s = some (r, g') → r = false) ∧
    ((make_move initial_game "e9" "e9").map (fun x => (x.1, x.2.current_turn)) =
      some (true, RED)) := by
  refine ⟨?_, ?_, by decide⟩
  · intro g s hstate hcheck hlen hc hpat
    obtain ⟨c, hc0, hcl⟩ := hc
    unfold make_move
    rw [hc0]
    simp only [bind, Option.some_bind]
    rw [if_neg (contains_true_ne_false hcl), if_neg (contains_true_ne_false hcl),
      if_neg (by omega)]
    have hrest : make_move_validated g s s = some (true, change_turn g) := by
      unfold make_move_validated
      rw [if_neg (by simp [hstate]), if_pos ⟨rfl, hcheck⟩]
      rfl
    by_cases h3 : s.length = 3
    · rw [if_pos h3, if_neg (not_not_intro (hpat h3))]
      exact hrest
    · rw [if_neg h3, if_neg h3]
      exact hrest
  · intro g s r g' hb hic h
    unfold make_move at h
    cases hc : s.toList.head? with
    | none =>
      rw [hc] at h
      cases h
    | some c =>
      rw [hc] at h
      simp only [bind, Option.some_bind] at h
      by_cases hcl : alphabetL.contains c.toLower = false
      · rw [if_pos hcl] at h
        simp only [pure, Option.some.injEq, Prod.mk.injEq] at h
        exact h.1.symm
      · rw [if_neg hcl, if_neg hcl] at h
        by_cases hlen : s.length < 2 ∨ s.length < 2
        · rw [if_pos hlen] at h
          simp only [pure, Option.some.injEq, Prod.mk.injEq] at h
          exact h.1.symm
        · rw [if_neg hlen] at h
          have hval : make_move_validated g s s = some (r, g') → r = false := by
            intro hv
            unfold make_move_validated at hv
            by_cases hst : g.game_state ≠ UNFINISHED
            · rw [if_pos hst] at hv
              simp only [pure, Option.some.injEq, Prod.mk.injEq] at hv
              exact hv.1.symm
            · rw [if_neg hst, if_neg (by simp [hic])] at hv
              cases hp : parse_coordinate s with
              | none =>
                rw [hp] at hv
                cases hv
              | some pf =>
                rw [hp] at hv
                simp only [bind, Option.some_bind] at hv
                cases hmp : move_piece g.current_board pf pf g.current_turn with
                | none =>
                  rw [hmp] at hv
                  cases hv
                | some y =>
                  obtain ⟨made, b1⟩ := y
                  rw [hmp] at hv
                  simp only [bind, Option.some_bind] at hv
                  cases made with
                  | false =>
                    rw [if_neg (by simp)] at hv
                    simp only [pure, Option.some.injEq, Prod.mk.injEq] at hv
                    exact hv.1.symm
                  | true =>
                    exfalso
                    obtain ⟨piece, _hgf, _hvf, _hvmt, _hcolor, hneq, _⟩ :=
                      move_piece_success_inv hb hmp
                    exact hneq rfl
          by_cases h3 : s.length = 3
          · rw [if_pos h3] at h
            by_cases hpat : ¬(s.toList.get? 1 = some '1' ∧ s.toList.get? 2 = some '0')
            · rw [if_pos hpat] at h
              simp only [pure, Option.some.injEq, Prod.mk.injEq] at h
              exact h.1.symm
            · rw [if_neg hpat] at h
              exact hval h
          · rw [if_neg h3, if_neg h3] at h
            exact hval h

theorem C8_witness : make_move initial_game "d5" "d5" = some (true, change_turn initial_game) :=
  C8_pass_flips_turn.1 initial_game "d5" rfl rfl (by decide) ⟨'d', rfl, by decide⟩ (by decide)

/-! ### Claim C9 -/

/-- C9: the checkmate flag starts `False`, `update_checkmate_status` never
clears it, and hence once `get_checkmate_status` is `True` it stays `True`
for the rest of the game (the flag is written nowhere else). -/
theorem C9_checkmate_flag_monotone :
    get_checkmate_status initial_board = false ∧
    ∀ b b' : Board, update_checkmate_status b = some b' →
      get_checkmate_status b = true → get_checkmate_status b' = true :=
  ⟨rfl, fun _ _ h hcm => update_checkmate_status_monotone h hcm⟩

theorem C9_witness :
    get_checkmate_status flagged_board = true ∧
    ∃ b', update_checkmate_status flagged_board = some b' ∧ get_checkmate_status b' = true := by
  refine ⟨rfl, ?_⟩
  have hs : (update_checkmate_status flagged_board).isSome = true := by decide
  obtain ⟨b', hx⟩ := Option.isSome_iff_exists.mp hs
  exact ⟨b', hx, C9_checkmate_flag_monotone.2 _ _ hx rfl⟩

/-! ### Claim C10 -/

/-- C10: in the reachable position `exposed_pin_board` (reached from the
start by legal RED moves with BLUE passing), BLUE's soldier move e7-d7 is
accepted by `move_piece` even though it exposes BLUE's own General to the
RED Chariot: immediately afterwards `get_general_check_status` reports BLUE
in check — no check filtering is applied when the mover is not already in
check. -/
theorem C10_legal_move_can_expose_own_general :
    ((exposed_pin_board.bind (fun b => move_piece b (7, 'e') (7, 'd') BLUE)).map Prod.fst =
      some true) ∧
    (exposed_pin_board.bind (fun b => (move_piece b (7, 'e') (7, 'd') BLUE).bind
      (fun x => get_general_check_status x.2 BLUE)) = some true) :=
  ⟨by decide, by decide⟩

end Janggi
